import Mathlib

/-!
Shallow embedding of the earthdata-mcp embedding pipeline core:
* UMM metadata extraction (src/lambdas/embedding/handler.py, extract_* functions)
* the Postgres datastore operations (src/util/datastores/postgres.py)
* the embedding-lambda orchestration (process_kms_terms, process_concept_update,
  process_concept_delete, process_message, handler)
* the KMS client lookup (src/util/kms/client.py)
* paginated CMR search (src/util/cmr/client.py, search_cmr)

Python strings retrieved with dict.get are modelled as plain strings where the
empty string stands for "absent or empty": the source only ever branches on
truthiness (`if title := collection.get("EntryTitle")`), which conflates the
two.  Embedding vectors are opaque payloads carried through the pipeline, so
they are modelled as lists of integers.
-/

set_option maxRecDepth 4000

namespace EarthdataMcp

/-- Opaque embedding vector payload (the pipeline never inspects components). -/
abbrev Vec := List Int

/-! ## Extraction data model (src/lambdas/embedding/handler.py) -/

/-- One entry of UMM `ScienceKeywords`; `""` encodes an absent/empty field. -/
structure ScienceKeyword where
  VariableLevel3 : String := ""
  VariableLevel2 : String := ""
  VariableLevel1 : String := ""
  Term : String := ""
deriving DecidableEq, Repr

structure Instrument where
  ShortName : String := ""
deriving DecidableEq, Repr

structure Platform where
  ShortName : String := ""
  Instruments : List Instrument := []
deriving DecidableEq, Repr

/-- One entry of `CitationMetadata.Author`. -/
structure AuthorRec where
  Given : String := ""
  Family : String := ""
deriving DecidableEq, Repr

structure CitationMetadataRec where
  Author : List AuthorRec := []
  Publisher : String := ""
deriving DecidableEq, Repr

/-- The UMM fields the extractors read.  A missing JSON key is `""` / `[]`. -/
structure Metadata where
  EntryTitle : String := ""
  Abstract : String := ""
  Purpose : String := ""
  Name : String := ""
  LongName : String := ""
  Definition : String := ""
  ScienceKeywords : List ScienceKeyword := []
  Platforms : List Platform := []
  CitationMetadata : CitationMetadataRec := {}
deriving DecidableEq, Repr

/-- `EmbeddingChunk` dataclass of the embedding lambda. -/
structure EmbeddingChunk where
  concept_type : String
  concept_id : String
  «attribute» : String
  text_content : String
deriving DecidableEq, Repr

/-- `KMSTermRef` dataclass: a term to look up, with its scheme. -/
structure KMSTermRef where
  term : String
  scheme : String
deriving DecidableEq, Repr

/-- `ExtractionResult` dataclass. -/
structure ExtractionResult where
  chunks : List EmbeddingChunk := []
  kms_terms : List KMSTermRef := []
deriving DecidableEq, Repr

/-- The `or`-chain picking the most specific science-keyword level
(`kw.get("VariableLevel3") or ... or kw.get("Term")`, Python truthiness). -/
def keywordTerm (kw : ScienceKeyword) : String :=
  if kw.VariableLevel3 ≠ "" then kw.VariableLevel3
  else if kw.VariableLevel2 ≠ "" then kw.VariableLevel2
  else if kw.VariableLevel1 ≠ "" then kw.VariableLevel1
  else kw.Term

/-- Science-keyword KMS refs shared by the collection and variable extractors. -/
def scienceKeywordRefs (kws : List ScienceKeyword) : List KMSTermRef :=
  kws.filterMap fun kw =>
    let t := keywordTerm kw
    if t = "" then none else some ⟨t, "sciencekeywords"⟩

/-- Platform and instrument KMS refs of the collection extractor. -/
def platformRefs (ps : List Platform) : List KMSTermRef :=
  ps.flatMap fun p =>
    (if p.ShortName = "" then [] else [(⟨p.ShortName, "platforms"⟩ : KMSTermRef)]) ++
      p.Instruments.filterMap fun i =>
        if i.ShortName = "" then none else some ⟨i.ShortName, "instruments"⟩

/-- `extract_collection_data` (handler.py). -/
def extract_collection_data (concept_type concept_id : String) (c : Metadata) :
    ExtractionResult where
  chunks :=
    (if c.EntryTitle = "" then [] else
      [⟨concept_type, concept_id, "title", c.EntryTitle⟩]) ++
    (if c.Abstract = "" then [] else
      [⟨concept_type, concept_id, "abstract", c.Abstract⟩]) ++
    (if c.Purpose = "" then [] else
      [⟨concept_type, concept_id, "purpose", c.Purpose⟩])
  kms_terms := scienceKeywordRefs c.ScienceKeywords ++ platformRefs c.Platforms

/-- `extract_variable_data` (handler.py). -/
def extract_variable_data (concept_type concept_id : String) (v : Metadata) :
    ExtractionResult where
  chunks :=
    (if v.Name = "" then [] else
      [⟨concept_type, concept_id, "name", v.Name⟩]) ++
    (if v.LongName = "" then [] else
      [⟨concept_type, concept_id, "long_name", v.LongName⟩]) ++
    (if v.Definition = "" then [] else
      [⟨concept_type, concept_id, "definition", v.Definition⟩])
  kms_terms := scienceKeywordRefs v.ScienceKeywords

/-- The author-name loop of `extract_citation_data` / `extract_citation_authors`:
`"Given Family"` when both are truthy, the family name alone when only it is,
nothing when the family name is missing. -/
def citationAuthorNames (authors : List AuthorRec) : List String :=
  authors.filterMap fun a =>
    if a.Given ≠ "" ∧ a.Family ≠ "" then some (a.Given ++ " " ++ a.Family)
    else if a.Family ≠ "" then some a.Family
    else none

/-- `extract_citation_data` (handler.py): name, authors, publisher, abstract. -/
def extract_citation_data (concept_type concept_id : String) (c : Metadata) :
    ExtractionResult where
  chunks :=
    (if c.Name = "" then [] else
      [⟨concept_type, concept_id, "name", c.Name⟩]) ++
    (let names := citationAuthorNames c.CitationMetadata.Author
     if names.isEmpty then [] else
      [⟨concept_type, concept_id, "authors", String.intercalate "; " names⟩]) ++
    (if c.CitationMetadata.Publisher = "" then [] else
      [⟨concept_type, concept_id, "publisher", c.CitationMetadata.Publisher⟩]) ++
    (if c.Abstract = "" then [] else
      [⟨concept_type, concept_id, "abstract", c.Abstract⟩])
  kms_terms := []

/-- `extract_data` (handler.py): dispatch on concept type; unknown types give
an empty result. -/
def extract_data (concept_type concept_id : String) (md : Metadata) :
    ExtractionResult :=
  if concept_type = "collection" then extract_collection_data concept_type concept_id md
  else if concept_type = "variable" then extract_variable_data concept_type concept_id md
  else if concept_type = "citation" then extract_citation_data concept_type concept_id md
  else {}

example :
    (extract_data "variable" "V1" { Name := "sst", LongName := "Sea Surface Temp" }).chunks =
      [⟨"variable", "V1", "name", "sst"⟩, ⟨"variable", "V1", "long_name", "Sea Surface Temp"⟩] := by
  decide

example :
    citationAuthorNames [⟨"Alice", "A"⟩, ⟨"", "B"⟩, ⟨"", "C"⟩] = ["Alice A", "B", "C"] := by
  decide

/-! ## Datastore (src/util/datastores/postgres.py)

Tables are modelled as row lists in insertion order.  The `id` column of
`concept_embeddings` is a fresh random `uuid4` surrogate key that nothing ever
reads; it is left out of the logical state.  `NOW()` is modelled by a clock
value supplied by the caller. -/

/-- Row of `concept_embeddings` (minus the random `uuid4` surrogate id). -/
structure ChunkRow where
  concept_type : String
  concept_id : String
  «attribute» : String
  text_content : String
  embedding : Vec
deriving DecidableEq, Repr

/-- Row of `concept_associations`. -/
structure AssocRow where
  left_concept_type : String
  left_concept_id : String
  right_concept_type : String
  right_concept_id : String
deriving DecidableEq, Repr

/-- Row of `kms_embeddings`. -/
structure KmsRow where
  kms_uuid : String
  scheme : String
  term : String
  definition : Option String
  embedding : Vec
  updated_at : Nat
deriving DecidableEq, Repr

/-- Row of `concept_kms_associations`. -/
structure KmsAssocRow where
  concept_type : String
  concept_id : String
  kms_uuid : String
deriving DecidableEq, Repr

/-- The four tables owned by the datastore. -/
structure DBState where
  concept_embeddings : List ChunkRow := []
  concept_associations : List AssocRow := []
  kms_embeddings : List KmsRow := []
  concept_kms_associations : List KmsAssocRow := []
deriving DecidableEq, Repr

/-- `upsert_chunks`: empty input is a no-op returning 0; otherwise delete every
row with this `concept_id`, then insert the given chunks. -/
def upsert_chunks (st : DBState) (concept_type concept_id : String)
    (chunks : List (String × String × Vec)) : DBState × Nat :=
  if chunks.isEmpty then (st, 0)
  else
    ({ st with concept_embeddings :=
        st.concept_embeddings.filter (fun r => ¬ r.concept_id = concept_id) ++
          chunks.map fun c => ⟨concept_type, concept_id, c.1, c.2.1, c.2.2⟩ },
      chunks.length)

/-- `delete_chunks`: delete all chunk rows for a concept, returning the count. -/
def delete_chunks (st : DBState) (concept_id : String) : DBState × Nat :=
  (({ st with concept_embeddings :=
      st.concept_embeddings.filter fun r => ¬ r.concept_id = concept_id }),
    (st.concept_embeddings.filter fun r => r.concept_id = concept_id).length)

/-- `ASSOCIATION_TYPE_MAP`: CMR association keys to right-hand concept types. -/
def ASSOCIATION_TYPE_MAP : List (String × String) :=
  [("variables", "variable"), ("citations", "citation")]

/-- `associations.get(assoc_key, [])` on the fetched associations dict. -/
def assocGet (associations : List (String × List String)) (key : String) :
    List String :=
  ((associations.find? fun kv => kv.1 = key).map fun kv => kv.2).getD []

/-- The insert loop of `upsert_associations`: `ON CONFLICT (left_concept_id,
right_concept_id) DO NOTHING`, but `count` is incremented for every attempt. -/
def assocInsertLoop (rows : List AssocRow) (ct cid rtype : String) :
    List String → List AssocRow × Nat
  | [] => (rows, 0)
  | rid :: rest =>
    let rows' :=
      if rows.any fun r => r.left_concept_id = cid ∧ r.right_concept_id = rid then rows
      else rows ++ [⟨ct, cid, rtype, rid⟩]
    let (rowsF, c) := assocInsertLoop rows' ct cid rtype rest
    (rowsF, c + 1)

/-- `upsert_associations`: empty dict is a no-op returning 0; otherwise delete
rows with this left concept id, then insert `variables` and `citations`. -/
def upsert_associations (st : DBState) (concept_type concept_id : String)
    (associations : List (String × List String)) : DBState × Nat :=
  if associations.isEmpty then (st, 0)
  else
    let base := st.concept_associations.filter fun r => ¬ r.left_concept_id = concept_id
    let (rows1, c1) :=
      assocInsertLoop base concept_type concept_id "variable" (assocGet associations "variables")
    let (rows2, c2) :=
      assocInsertLoop rows1 concept_type concept_id "citation" (assocGet associations "citations")
    ({ st with concept_associations := rows2 }, c1 + c2)

/-- `delete_associations`: remove rows where the concept appears on either side. -/
def delete_associations (st : DBState) (concept_id : String) : DBState × Nat :=
  (({ st with concept_associations :=
      st.concept_associations.filter fun r =>
        ¬ (r.left_concept_id = concept_id ∨ r.right_concept_id = concept_id) }),
    (st.concept_associations.filter fun r =>
      r.left_concept_id = concept_id ∨ r.right_concept_id = concept_id).length)

/-- `get_kms_embedding`: the row keyed by `kms_uuid` (the source projects four
columns of it; callers only use presence). -/
def get_kms_embedding (st : DBState) (kms_uuid : String) : Option KmsRow :=
  st.kms_embeddings.find? fun r => r.kms_uuid = kms_uuid

/-- `upsert_kms_embedding`: insert keyed by `kms_uuid`; on conflict overwrite
only `definition`, `embedding` and `updated_at`.  Returns whether a new row was
inserted (`xmax = 0`). -/
def upsert_kms_embedding (st : DBState) (kms_uuid scheme term : String)
    (definition : Option String) (embedding : Vec) (now : Nat) : DBState × Bool :=
  match get_kms_embedding st kms_uuid with
  | some _ =>
    ({ st with kms_embeddings := st.kms_embeddings.map fun r =>
        if r.kms_uuid = kms_uuid then
          { r with definition := definition, embedding := embedding, updated_at := now }
        else r },
      false)
  | none =>
    ({ st with kms_embeddings :=
        st.kms_embeddings ++ [⟨kms_uuid, scheme, term, definition, embedding, now⟩] },
      true)

/-- The insert loop of `upsert_concept_kms_associations`: `ON CONFLICT DO
NOTHING` on the primary-key triple; `count` adds `cur.rowcount` (0 on conflict). -/
def kmsAssocInsertLoop (rows : List KmsAssocRow) (ct cid : String) :
    List String → List KmsAssocRow × Nat
  | [] => (rows, 0)
  | u :: rest =>
    if rows.any fun r => r = ⟨ct, cid, u⟩ then kmsAssocInsertLoop rows ct cid rest
    else
      let (rowsF, c) := kmsAssocInsertLoop (rows ++ [⟨ct, cid, u⟩]) ct cid rest
      (rowsF, c + 1)

/-- `upsert_concept_kms_associations`: empty input is a no-op returning 0;
otherwise delete rows with this `(concept_type, concept_id)`, then insert. -/
def upsert_concept_kms_associations (st : DBState) (concept_type concept_id : String)
    (kms_uuids : List String) : DBState × Nat :=
  if kms_uuids.isEmpty then (st, 0)
  else
    let base := st.concept_kms_associations.filter fun r =>
      ¬ (r.concept_type = concept_type ∧ r.concept_id = concept_id)
    let (rows, c) := kmsAssocInsertLoop base concept_type concept_id kms_uuids
    ({ st with concept_kms_associations := rows }, c)

/-- `delete_concept_kms_associations`: delete by `concept_id` alone. -/
def delete_concept_kms_associations (st : DBState) (concept_id : String) :
    DBState × Nat :=
  (({ st with concept_kms_associations :=
      st.concept_kms_associations.filter fun r => ¬ r.concept_id = concept_id }),
    (st.concept_kms_associations.filter fun r => r.concept_id = concept_id).length)

/-! ## Embedding-lambda orchestration (src/lambdas/embedding/handler.py)

The lambda's collaborators (CMR, the embedder, KMS lookup) are pure functions
supplied by an environment: the claims under proof fix their responses
("same fetched metadata, same embedder outputs, same KMS responses"). -/

/-- External collaborators of one handler invocation.  `lookupTerm` returns the
`(uuid, definition)` pair of a resolved term (`KMSTerm.scheme`/`term` are echoed
from the query by the client, see `lookup_term`); `embed` takes
`(text, concept_type, attribute)`; errors are carried as messages. -/
structure Env where
  fetchConcept : String → String → Except String Metadata
  fetchAssociations : String → List (String × List String)
  embed : String → String → String → Except String Vec
  lookupTerm : String → String → Option (String × Option String)
  now : Nat

/-- Errors escaping `process_message` (all are caught by `handler`). -/
inductive HandlerErr where
  | processingError (msg : String)
  | keyError (key : String)
  | jsonDecodeError
deriving DecidableEq, Repr

/-- The text embedded for a KMS term:
`f"{term}: {definition}" if definition else term`. -/
def kmsText (term : String) (defn : Option String) : String :=
  match defn with
  | some d => term ++ ": " ++ d
  | none => term

/-- The store half of one `process_kms_terms` iteration: when the uuid has no
`kms_embeddings` row yet, embed the term text and store it; an
`EmbeddingError` skips just this term. -/
def kmsStoreStep (env : Env) (t : KMSTermRef) (uuid : String) (defn : Option String)
    (st : DBState) : DBState :=
  match get_kms_embedding st uuid with
  | some _ => st
  | none =>
    match env.embed (kmsText t.term defn) "kms" t.scheme with
    | .error _ => st
    | .ok emb => (upsert_kms_embedding st uuid t.scheme t.term defn emb env.now).1

/-- The loop of `process_kms_terms`: dedup by `(term, scheme)`, look up,
collect the uuid regardless of whether storing succeeds, then store via
`kmsStoreStep`. -/
def kmsTermsLoop (env : Env) : List KMSTermRef → List (String × String) → DBState →
    List String × DBState
  | [], _, st => ([], st)
  | t :: rest, seen, st =>
    if (t.term, t.scheme) ∈ seen then kmsTermsLoop env rest seen st
    else
      let seen' := (t.term, t.scheme) :: seen
      match env.lookupTerm t.term t.scheme with
      | none => kmsTermsLoop env rest seen' st
      | some (uuid, defn) =>
        let st' := kmsStoreStep env t uuid defn st
        let (us, stF) := kmsTermsLoop env rest seen' st'
        (uuid :: us, stF)

/-- `process_kms_terms`: returns the collected uuids and the updated state. -/
def process_kms_terms (env : Env) (kms_terms : List KMSTermRef) (st : DBState) :
    List String × DBState :=
  kmsTermsLoop env kms_terms [] st

/-- The chunk-embedding loop of `process_concept_update`: the first
`EmbeddingError` aborts the whole message. -/
def embedAll (env : Env) : List EmbeddingChunk →
    Except String (List (String × String × Vec))
  | [] => .ok []
  | c :: rest =>
    match env.embed c.text_content c.concept_type c.«attribute» with
    | .error e => .error e
    | .ok v =>
      match embedAll env rest with
      | .error e => .error e
      | .ok l => .ok ((c.«attribute», c.text_content, v) :: l)

/-- The write phase of `process_concept_update` once every chunk embedded:
upsert chunks, process KMS terms, link collected uuids when non-empty, and for
collections store fetched associations when non-empty. -/
def updateCore (env : Env) (concept_type concept_id : String)
    (extraction : ExtractionResult)
    (embedded_chunks : List (String × String × Vec)) (st : DBState) : DBState :=
  let st1 := (upsert_chunks st concept_type concept_id embedded_chunks).1
  let (kms_uuids, st2) := process_kms_terms env extraction.kms_terms st1
  let st3 :=
    if kms_uuids.isEmpty then st2
    else (upsert_concept_kms_associations st2 concept_type concept_id kms_uuids).1
  let st4 :=
    if concept_type = "collection" then
      let associations := env.fetchAssociations concept_id
      if associations.isEmpty then st3
      else (upsert_associations st3 concept_type concept_id associations).1
    else st3
  st4

/-- `process_concept_update` after message-field access: fetch, extract, embed
every chunk (the first error aborts), then run the write phase. -/
def process_concept_update (env : Env) (concept_type concept_id : String)
    (revision_id : Int) (st : DBState) : Except HandlerErr DBState :=
  match env.fetchConcept concept_id (toString revision_id) with
  | .error e => .error (.processingError e)
  | .ok concept_data =>
    let extraction := extract_data concept_type concept_id concept_data
    match embedAll env extraction.chunks with
    | .error e => .error (.processingError e)
    | .ok embedded_chunks =>
      .ok (updateCore env concept_type concept_id extraction embedded_chunks st)

/-- `process_concept_delete`: cascade delete of chunks, associations and KMS
links; missing rows only lower the logged counts. -/
def process_concept_delete (concept_id : String) (st : DBState) : DBState :=
  let st1 := (delete_chunks st concept_id).1
  let st2 := (delete_associations st1 concept_id).1
  (delete_concept_kms_associations st2 concept_id).1

/-- Parsed JSON body of a queue message; `none` fields are missing keys
(`message["…"]` raises `KeyError` on them, `message.get("action")` does not). -/
structure MsgJson where
  action : Option String := none
  concept_type : Option String := none
  concept_id : Option String := none
  revision_id : Option Int := none
deriving DecidableEq, Repr

/-- One SQS record: `body = none` models a body `json.loads` rejects. -/
structure SqsRecord where
  messageId : String
  body : Option MsgJson
deriving DecidableEq, Repr

/-- `process_message`: parse the body, dispatch on `action`; an unknown action
only logs a warning and succeeds. -/
def process_message (env : Env) (record : SqsRecord) (st : DBState) :
    Except HandlerErr DBState :=
  match record.body with
  | none => .error .jsonDecodeError
  | some message =>
    if message.action = some "concept-update" then
      match message.concept_type, message.concept_id, message.revision_id with
      | some ct, some cid, some rid => process_concept_update env ct cid rid st
      | none, _, _ => .error (.keyError "concept-type")
      | some _, none, _ => .error (.keyError "concept-id")
      | some _, some _, none => .error (.keyError "revision-id")
    else if message.action = some "concept-delete" then
      match message.concept_id with
      | some cid => .ok (process_concept_delete cid st)
      | none => .error (.keyError "concept-id")
    else .ok st

/-- `handler`: process each record, converting any exception into a
`batchItemFailures` entry and carrying on with the rest of the batch. -/
def handler (env : Env) (records : List SqsRecord) (st : DBState) :
    DBState × List String :=
  records.foldl
    (fun acc record =>
      match process_message env record acc.1 with
      | .ok st' => (st', acc.2)
      | .error _ => (acc.1, acc.2 ++ [record.messageId]))
    (st, [])

/-! ## KMS client (src/util/kms/client.py)

The two HTTP round trips are supplied by an environment whose `none` results
stand for any request failure (network error, HTTP error status, bad JSON). -/

/-- One entry of the pattern-search `concepts` array; `uuid = none` models a
missing key (the code also treats `""` as falsy where it checks truthiness). -/
structure SearchConcept where
  prefLabel : String := ""
  uuid : Option String := none
deriving DecidableEq, Repr

/-- Parsed body of the pattern-search response. -/
structure SearchResponse where
  concepts : List SearchConcept := []
deriving DecidableEq, Repr

/-- Parsed body of the concept-details response. -/
structure ConceptResponse where
  definition : Option String := none
deriving DecidableEq, Repr

/-- The KMS HTTP surface: `search scheme term` and `conceptDetails uuid`;
`none` is a failed call. -/
structure KmsHttpEnv where
  search : String → String → Option SearchResponse
  conceptDetails : String → Option ConceptResponse

/-- `KMSTerm` as returned by the client (util/models.py). -/
structure KMSLookupResult where
  uuid : String
  scheme : String
  term : String
  definition : Option String
deriving DecidableEq, Repr

/-- Python `str.upper()` (character-wise uppercase, kernel-reducible form of
`String.toUpper`). -/
def strUpper (s : String) : String :=
  String.mk (s.data.map Char.toUpper)

/-- `_extract_uuid_from_search`: prefer an exact case-insensitive `prefLabel`
match with a truthy uuid, else the first concept's uuid (possibly absent). -/
def extractUuidFromSearch (data : SearchResponse) (term : String) : Option String :=
  match data.concepts.find? (fun c =>
      strUpper c.prefLabel = strUpper term ∧ (c.uuid.getD "") ≠ "") with
  | some c => c.uuid
  | none =>
    match data.concepts with
    | [] => none
    | c :: _ => c.uuid

/-- `_fetch_concept_definition`: `none` on a failed call, else the (possibly
missing) `definition` field. -/
def fetchConceptDefinition (henv : KmsHttpEnv) (uuid : String) : Option String :=
  match henv.conceptDetails uuid with
  | none => none
  | some data => data.definition

/-- `_lookup_term_cached` / `lookup_term` (the cache memoises a pure function
of `(term, scheme)` and does not change its value). -/
def lookup_term (henv : KmsHttpEnv) (term scheme : String) : Option KMSLookupResult :=
  match henv.search scheme term with
  | none => none
  | some data =>
    match extractUuidFromSearch data term with
    | none => none
    | some uuid =>
      if uuid = "" then none
      else
        let definition := fetchConceptDefinition henv uuid
        some ⟨uuid, scheme, term, definition⟩

/-! ## CMR paginated search (src/util/cmr/client.py, search_cmr) -/

/-- Opaque search-result item payload. -/
abbrev CmrItem := Nat

/-- Parsed body of one search page; `hits = none` models a missing `hits` key
(`data.get("hits", 0)` then yields 0). -/
structure PageData where
  items : List CmrItem := []
  hits : Option Nat := none
deriving DecidableEq, Repr

/-- The CMR search HTTP surface: the response for each `page_num`. -/
structure SearchEnv where
  fetchPage : Nat → Except String PageData

/-- The `while True` pagination loop of `search_cmr`, as the list of yielded
pages.  `fuel` bounds the number of requests the model is willing to issue;
every theorem below pins results that hold for all sufficient fuel. -/
def searchLoop (senv : SearchEnv) : Nat → Nat → Nat → Except String (List (List CmrItem))
  | 0, _, _ => .ok []
  | fuel + 1, page_num, total_fetched =>
    match senv.fetchPage page_num with
    | .error e => .error e
    | .ok data =>
      if data.items.isEmpty then .ok []
      else
        let total := total_fetched + data.items.length
        if total ≥ data.hits.getD 0 then .ok [data.items]
        else
          match searchLoop senv fuel (page_num + 1) total with
          | .error e => .error e
          | .ok rest => .ok (data.items :: rest)

/-- `search_cmr`: reject unsupported concept types, then paginate from page 1. -/
def search_cmr (concept_type : String) (senv : SearchEnv) (fuel : Nat) :
    Except String (List (List CmrItem)) :=
  if concept_type = "collection" ∨ concept_type = "variable" ∨ concept_type = "citation" then
    searchLoop senv fuel 1 0
  else .error "Unsupported concept_type"

/-! ## Claim C9 — citation author formatting -/

/-- The S6 scenario metadata. -/
def s6Metadata : Metadata :=
  { Name := "T",
    CitationMetadata := { Author := [⟨"Alice", "A"⟩, ⟨"", "B"⟩, ⟨"", "C"⟩] } }

/-- Claim C9: for citation metadata with a non-empty `CitationMetadata.Author`
list, extraction yields exactly one `authors` chunk whose text semicolon-joins
`"Given Family"` (both truthy), bare `Family` (only it truthy), skipping
authors without a family name — and none at all when every author is skipped;
on the S6 input the text is exactly `"Alice A; B; C"`. -/
theorem claim_C9 (concept_type concept_id : String) (md : Metadata)
    (_hauthors : md.CitationMetadata.Author ≠ []) :
    (citationAuthorNames md.CitationMetadata.Author ≠ [] →
      (extract_citation_data concept_type concept_id md).chunks.filter
          (fun c => c.«attribute» = "authors") =
        [⟨concept_type, concept_id, "authors",
          String.intercalate "; " (citationAuthorNames md.CitationMetadata.Author)⟩]) ∧
    (citationAuthorNames md.CitationMetadata.Author = [] →
      (extract_citation_data concept_type concept_id md).chunks.filter
          (fun c => c.«attribute» = "authors") = []) ∧
    (extract_citation_data "citation" "CIT1-PROV" s6Metadata).chunks.filter
        (fun c => c.«attribute» = "authors") =
      [⟨"citation", "CIT1-PROV", "authors", "Alice A; B; C"⟩] := by
  refine ⟨?_, ?_, by decide⟩ <;>
    · intro h
      simp only [extract_citation_data, List.filter_append]
      split_ifs <;>
        simp_all [List.filter, List.isEmpty_iff]

/-- Witness for C9 at the S6 input. -/
theorem claim_C9_witness :
    (extract_citation_data "citation" "CIT1-PROV" s6Metadata).chunks.filter
        (fun c => c.«attribute» = "authors") =
      [⟨"citation", "CIT1-PROV", "authors", "Alice A; B; C"⟩] :=
  (claim_C9 "citation" "CIT1-PROV" s6Metadata (by decide)).2.2

/-! ## Claim C10 — pagination stops without a usable `hits` value -/

/-- Claim C10: when a page's body lacks `hits` (or reports `hits` not above the
cumulative item count including that page), `search_cmr` yields that page and
stops: the result is that single page no matter how much more fuel (further
requests) the loop is allowed, even when the page is full; in particular a
first page with items but no `hits` key ends the search at one page. -/
theorem claim_C10 (senv : SearchEnv) (page_num total_fetched : Nat) (data : PageData)
    (hpage : senv.fetchPage page_num = .ok data)
    (hitems : data.items ≠ [])
    (hhits : data.hits = none ∨ data.hits.getD 0 ≤ total_fetched + data.items.length) :
    (∀ fuel, searchLoop senv (fuel + 1) page_num total_fetched = .ok [data.items]) ∧
    (∀ concept_type fuel, page_num = 1 → total_fetched = 0 →
      (concept_type = "collection" ∨ concept_type = "variable" ∨ concept_type = "citation") →
      search_cmr concept_type senv (fuel + 1) = .ok [data.items]) := by
  have hstop : total_fetched + data.items.length ≥ data.hits.getD 0 := by
    rcases hhits with h | h
    · simp [h]
    · exact h
  have hloop : ∀ fuel, searchLoop senv (fuel + 1) page_num total_fetched = .ok [data.items] := by
    intro fuel
    simp only [searchLoop, hpage]
    rw [if_neg (by simpa [List.isEmpty_iff] using hitems), if_pos hstop]
  refine ⟨hloop, ?_⟩
  rintro concept_type fuel rfl rfl hct
  have : search_cmr concept_type senv (fuel + 1) = searchLoop senv (fuel + 1) 1 0 := by
    simp [search_cmr, hct]
  rw [this, hloop]

/-- Witness for C10: a concrete first page with three items and no `hits` key
is yielded and ends the search, for several fuel values. -/
theorem claim_C10_witness :
    searchLoop ⟨fun _ => .ok { items := [7, 8, 9] }⟩ 5 1 0 = .ok [[7, 8, 9]] ∧
    search_cmr "collection" ⟨fun _ => .ok { items := [7, 8, 9] }⟩ 9 = .ok [[7, 8, 9]] := by
  have h := claim_C10 ⟨fun _ => .ok { items := [7, 8, 9] }⟩ 1 0 { items := [7, 8, 9] }
    rfl (by decide) (Or.inl rfl)
  exact ⟨h.1 4, h.2 "collection" 8 rfl rfl (Or.inl rfl)⟩

/-! ## Claim C6 — KMS lookup failure handling

`_lookup_term_cached` returns `None` when the pattern search fails, but when
only the concept-details fetch fails, `_fetch_concept_definition` degrades to
`None` and the client still returns a `KMSTerm` with a `None` definition. -/

/-- A KMS HTTP environment whose pattern search finds `"TERRA"` with uuid
`"uuid-terra"` and whose concept-details call always fails. -/
def kmsEnvDetailsDown : KmsHttpEnv where
  search := fun _ _ => some { concepts := [{ prefLabel := "TERRA", uuid := some "uuid-terra" }] }
  conceptDetails := fun _ => none

/-- Counterexample to C6: with the concept-details call failing (network error,
HTTP error or bad JSON) but the pattern search succeeding, `lookup_term` does
not return `nil`: it returns the resolved term with a `nil` definition. -/
theorem claim_C6_counterexample :
    lookup_term kmsEnvDetailsDown "TERRA" "platforms" =
      some ⟨"uuid-terra", "platforms", "TERRA", none⟩ ∧
    lookup_term kmsEnvDetailsDown "TERRA" "platforms" ≠ none := by
  constructor <;> decide

/-- Claim C6 (amended): if the pattern-search call fails, `lookup_term` returns
`nil` for that `(term, scheme)`; if the pattern search resolves a uuid but the
concept-details call fails, `lookup_term` returns the term resolved to that
uuid with a `nil` definition rather than `nil`. -/
theorem claim_C6_amended (henv : KmsHttpEnv) (term scheme : String) :
    (henv.search scheme term = none → lookup_term henv term scheme = none) ∧
    (∀ data uuid, henv.search scheme term = some data →
      extractUuidFromSearch data term = some uuid → uuid ≠ "" →
      henv.conceptDetails uuid = none →
      lookup_term henv term scheme = some ⟨uuid, scheme, term, none⟩) := by
  constructor
  · intro h
    simp [lookup_term, h]
  · intro data uuid hsearch hextract huuid hdetails
    simp [lookup_term, hsearch, hextract, huuid, fetchConceptDefinition, hdetails]

/-- Witness for C6 (amended), discharged on concrete environments: a failing
pattern search yields `nil`; a failing details fetch yields a definition-less
term. -/
theorem claim_C6_witness :
    lookup_term ⟨fun _ _ => none, fun _ => none⟩ "MODIS" "instruments" = none ∧
    lookup_term kmsEnvDetailsDown "TERRA" "platforms" =
      some ⟨"uuid-terra", "platforms", "TERRA", none⟩ := by
  constructor
  · exact (claim_C6_amended ⟨fun _ _ => none, fun _ => none⟩ "MODIS" "instruments").1 rfl
  · exact (claim_C6_amended kmsEnvDetailsDown "TERRA" "platforms").2
      { concepts := [{ prefLabel := "TERRA", uuid := some "uuid-terra" }] }
      "uuid-terra" rfl (by decide) (by decide) rfl

/-! ## Helper lemmas about the batch fold of `handler` -/

/-- Unfolding the failure accumulator of `handler`'s fold. -/
theorem handler_foldl_shift (env : Env) (records : List SqsRecord) (st : DBState)
    (fails : List String) :
    records.foldl
      (fun acc record =>
        match process_message env record acc.1 with
        | .ok st' => (st', acc.2)
        | .error _ => (acc.1, acc.2 ++ [record.messageId]))
      (st, fails) =
      ((handler env records st).1, fails ++ (handler env records st).2) := by
  induction records generalizing st fails with
  | nil => simp [handler]
  | cons r rs ih =>
    simp only [handler, List.foldl_cons]
    cases hpm : process_message env r st with
    | ok st' => simp only [hpm, ih st', List.nil_append]
    | error e => simp only [hpm, ih st, List.nil_append, List.append_assoc]

/-- One step of the batch loop. -/
theorem handler_cons (env : Env) (r : SqsRecord) (rs : List SqsRecord) (st : DBState) :
    handler env (r :: rs) st =
      match process_message env r st with
      | .ok st' => handler env rs st'
      | .error _ => ((handler env rs st).1, r.messageId :: (handler env rs st).2) := by
  simp only [handler, List.foldl_cons]
  cases hpm : process_message env r st with
  | ok st' => simp [hpm, handler_foldl_shift env rs st' []]
  | error e => simpa [hpm] using handler_foldl_shift env rs st [r.messageId]

/-- The batch loop splits around any decomposition of the record list. -/
theorem handler_append (env : Env) (xs ys : List SqsRecord) (st : DBState) :
    handler env (xs ++ ys) st =
      ((handler env ys (handler env xs st).1).1,
        (handler env xs st).2 ++ (handler env ys (handler env xs st).1).2) := by
  induction xs generalizing st with
  | nil => simp [handler]
  | cons r rs ih =>
    rw [List.cons_append, handler_cons, handler_cons]
    cases hpm : process_message env r st with
    | ok st' => simp only [ih st']
    | error e => simp only [ih st, List.cons_append]

/-! ## Claim C7 — which messages the embedding handler records as failed

`process_message` treats an unknown `action` as a logged warning and returns
normally, so a body that parses but fails `ConceptMessage` validation because
of its action value is NOT reported in `batchItemFailures`. -/

/-- An environment with every collaborator inert. -/
def envInert : Env where
  fetchConcept := fun _ _ => .error "unreachable"
  fetchAssociations := fun _ => []
  embed := fun _ _ _ => .error "unreachable"
  lookupTerm := fun _ _ => none
  now := 0

/-- Counterexample to C7: a message whose body parses but carries the action
`"concept-upsert"` (not a valid `ConceptMessage` action) is processed without
error and its `messageId` is absent from the returned `batchItemFailures`. -/
theorem claim_C7_counterexample :
    process_message envInert ⟨"msg-1", some { action := some "concept-upsert" }⟩ {} =
      .ok {} ∧
    (handler envInert [⟨"msg-1", some { action := some "concept-upsert" }⟩] {}).2 = [] := by
  constructor <;> rfl

/-- Claim C7 (amended): the handler isolates every message: a record whose
processing raises (unparseable body, or a recognized action whose processing
fails) contributes exactly its `messageId` to `batchItemFailures` and the
remaining records are still processed; a record processed without error
contributes nothing; and a parsed body whose action is neither
`concept-update` nor `concept-delete` is processed without error (logged and
skipped), so it is never recorded as failed. -/
theorem claim_C7_amended (env : Env) (st : DBState) (rs1 rs2 : List SqsRecord)
    (r : SqsRecord) :
    (handler env (rs1 ++ r :: rs2) st =
      match process_message env r (handler env rs1 st).1 with
      | .ok st2 =>
        ((handler env rs2 st2).1,
          (handler env rs1 st).2 ++ (handler env rs2 st2).2)
      | .error _ =>
        ((handler env rs2 (handler env rs1 st).1).1,
          (handler env rs1 st).2 ++ r.messageId ::
            (handler env rs2 (handler env rs1 st).1).2)) ∧
    (∀ mid (m : MsgJson), m.action ≠ some "concept-update" →
      m.action ≠ some "concept-delete" →
      process_message env ⟨mid, some m⟩ st = .ok st) := by
  constructor
  · rw [handler_append, handler_cons]
    cases hpm : process_message env r (handler env rs1 st).1 with
    | ok st2 => simp
    | error e => simp
  · intro mid m hup hdel
    simp [process_message, hup, hdel]

/-- Witness for C7 (amended) on a concrete batch: an unparseable first record
is recorded as failed, an unknown-action second record is not, and both
dispositions come from applying the amended theorem. -/
theorem claim_C7_witness :
    (handler envInert
        (([] : List SqsRecord) ++ ⟨"bad-json", none⟩ ::
          [⟨"odd-action", some { action := some "concept-upsert" }⟩]) {}).2 =
      ["bad-json"] ∧
    process_message envInert ⟨"odd-action", some { action := some "concept-upsert" }⟩ {} =
      .ok ({} : DBState) := by
  constructor
  · rw [(claim_C7_amended envInert {} []
      [⟨"odd-action", some { action := some "concept-upsert" }⟩] ⟨"bad-json", none⟩).1]
    rfl
  · exact (claim_C7_amended envInert {} [] [] ⟨"x", none⟩).2 "odd-action"
      { action := some "concept-upsert" } (by decide) (by decide)

/-! ## Claim C8 — delete path removes the concept's rows and nothing else -/

/-- Claim C8: processing a `concept-delete` never raises (missing rows are not
an error), removes every `concept_embeddings` row of the concept, every
`concept_associations` row with the concept on either side, and every
`concept_kms_associations` row of the concept, while keeping each other row
and leaving `kms_embeddings` untouched. -/
theorem claim_C8 (env : Env) (mid cid : String) (st : DBState) :
    process_message env
        ⟨mid, some { action := some "concept-delete", concept_id := some cid }⟩ st =
      .ok (process_concept_delete cid st) ∧
    (process_concept_delete cid st).concept_embeddings =
      st.concept_embeddings.filter (fun r => ¬ r.concept_id = cid) ∧
    (process_concept_delete cid st).concept_associations =
      st.concept_associations.filter
        (fun r => ¬ (r.left_concept_id = cid ∨ r.right_concept_id = cid)) ∧
    (process_concept_delete cid st).concept_kms_associations =
      st.concept_kms_associations.filter (fun r => ¬ r.concept_id = cid) ∧
    (process_concept_delete cid st).kms_embeddings = st.kms_embeddings ∧
    (process_concept_delete cid st).concept_embeddings.filter
      (fun r => r.concept_id = cid) = [] ∧
    (process_concept_delete cid st).concept_associations.filter
      (fun r => r.left_concept_id = cid ∨ r.right_concept_id = cid) = [] ∧
    (process_concept_delete cid st).concept_kms_associations.filter
      (fun r => r.concept_id = cid) = [] := by
  refine ⟨rfl, rfl, rfl, rfl, rfl, ?_, ?_, ?_⟩ <;>
    · rw [List.filter_eq_nil_iff]
      intro r hr
      simp only [process_concept_delete, delete_chunks, delete_associations,
        delete_concept_kms_associations, List.mem_filter] at hr
      simp_all

/-! ## Claim C5 — a chunk embedding error fails the message with no write -/

/-- `embedAll` only fails when the embedder fails on one of the chunks. -/
theorem embedAll_error_mem (env : Env) (chunks : List EmbeddingChunk) (e : String)
    (h : embedAll env chunks = .error e) :
    ∃ c ∈ chunks, (env.embed c.text_content c.concept_type c.«attribute»).isOk = false := by
  induction chunks generalizing e with
  | nil => simp [embedAll] at h
  | cons c rest ih =>
    simp only [embedAll] at h
    cases hc : env.embed c.text_content c.concept_type c.«attribute» with
    | error e' => exact ⟨c, List.mem_cons_self c rest, by simp [hc, Except.isOk, Except.toBool]⟩
    | ok v =>
      rw [hc] at h
      cases hr : embedAll env rest with
      | error e' =>
        obtain ⟨c', hc', hfail⟩ := ih e' hr
        exact ⟨c', List.mem_cons_of_mem c hc', hfail⟩
      | ok l => rw [hr] at h; cases h

/-- A well-formed `concept-update` queue record. -/
def updateRecord (mid concept_type concept_id : String) (revision_id : Int) : SqsRecord where
  messageId := mid
  body := some
    { action := some "concept-update"
      concept_type := some concept_type
      concept_id := some concept_id
      revision_id := some revision_id }

/-- Claim C5: when the metadata fetch succeeds but embedding one of the
extracted chunks raises `EmbeddingError`, some chunk's model call failed, the
whole update is aborted as a `ProcessingError`, and the handler reports the
message in `batchItemFailures` while the datastore state is exactly the state
from before the message: no chunk, KMS-embedding or association write happens. -/
theorem claim_C5 (env : Env) (concept_type concept_id : String) (revision_id : Int)
    (st : DBState) (md : Metadata) (e mid : String)
    (hfetch : env.fetchConcept concept_id (toString revision_id) = .ok md)
    (hembed : embedAll env (extract_data concept_type concept_id md).chunks = .error e) :
    (∃ c ∈ (extract_data concept_type concept_id md).chunks,
      (env.embed c.text_content c.concept_type c.«attribute»).isOk = false) ∧
    process_concept_update env concept_type concept_id revision_id st =
      .error (.processingError e) ∧
    handler env [updateRecord mid concept_type concept_id revision_id] st =
      (st, [mid]) := by
  refine ⟨embedAll_error_mem env _ e hembed, ?_, ?_⟩
  · simp only [process_concept_update, hfetch, hembed]
  · rw [handler_cons]
    have hpm : process_message env
        (updateRecord mid concept_type concept_id revision_id) st =
        .error (.processingError e) := by
      simp [process_message, updateRecord, process_concept_update, hfetch, hembed]
    rw [hpm]
    rfl

/-- Environment for the C5 witness: the fetch returns one `variable` field and
the embedder always fails. -/
def envEmbedDown : Env where
  fetchConcept := fun _ _ => .ok { Name := "sst" }
  fetchAssociations := fun _ => []
  embed := fun _ _ _ => .error "model down"
  lookupTerm := fun _ _ => none
  now := 0

/-- Witness for C5 on a concrete message whose single chunk fails to embed. -/
theorem claim_C5_witness :
    process_concept_update envEmbedDown "variable" "V1-P" 3 {} =
      .error (.processingError "model down") ∧
    handler envEmbedDown [updateRecord "msg-9" "variable" "V1-P" 3] {} =
      ({}, ["msg-9"]) := by
  have h := claim_C5 envEmbedDown "variable" "V1-P" 3 {} { Name := "sst" } "model down" "msg-9"
    rfl rfl
  exact ⟨h.2.1, h.2.2⟩

/-! ## Frame lemmas: each write touches exactly one table -/

theorem upsert_chunks_assoc (st : DBState) (ct cid : String)
    (chunks : List (String × String × Vec)) :
    (upsert_chunks st ct cid chunks).1.concept_associations = st.concept_associations := by
  unfold upsert_chunks; split <;> rfl

theorem upsert_chunks_kms (st : DBState) (ct cid : String)
    (chunks : List (String × String × Vec)) :
    (upsert_chunks st ct cid chunks).1.kms_embeddings = st.kms_embeddings := by
  unfold upsert_chunks; split <;> rfl

theorem upsert_chunks_kmsassoc (st : DBState) (ct cid : String)
    (chunks : List (String × String × Vec)) :
    (upsert_chunks st ct cid chunks).1.concept_kms_associations =
      st.concept_kms_associations := by
  unfold upsert_chunks; split <;> rfl

theorem upsert_kms_embedding_emb (st : DBState) (u s t : String) (d : Option String)
    (e : Vec) (n : Nat) :
    (upsert_kms_embedding st u s t d e n).1.concept_embeddings = st.concept_embeddings := by
  unfold upsert_kms_embedding; cases get_kms_embedding st u <;> rfl

theorem upsert_kms_embedding_assoc (st : DBState) (u s t : String) (d : Option String)
    (e : Vec) (n : Nat) :
    (upsert_kms_embedding st u s t d e n).1.concept_associations =
      st.concept_associations := by
  unfold upsert_kms_embedding; cases get_kms_embedding st u <;> rfl

theorem upsert_kms_embedding_kmsassoc (st : DBState) (u s t : String) (d : Option String)
    (e : Vec) (n : Nat) :
    (upsert_kms_embedding st u s t d e n).1.concept_kms_associations =
      st.concept_kms_associations := by
  unfold upsert_kms_embedding; cases get_kms_embedding st u <;> rfl

theorem kmsStoreStep_emb (env : Env) (t : KMSTermRef) (uuid : String)
    (defn : Option String) (st : DBState) :
    (kmsStoreStep env t uuid defn st).concept_embeddings = st.concept_embeddings := by
  unfold kmsStoreStep
  cases get_kms_embedding st uuid
  · cases env.embed (kmsText t.term defn) "kms" t.scheme
    · rfl
    · exact upsert_kms_embedding_emb ..
  · rfl

theorem kmsStoreStep_assoc (env : Env) (t : KMSTermRef) (uuid : String)
    (defn : Option String) (st : DBState) :
    (kmsStoreStep env t uuid defn st).concept_associations = st.concept_associations := by
  unfold kmsStoreStep
  cases get_kms_embedding st uuid
  · cases env.embed (kmsText t.term defn) "kms" t.scheme
    · rfl
    · exact upsert_kms_embedding_assoc ..
  · rfl

theorem kmsStoreStep_kmsassoc (env : Env) (t : KMSTermRef) (uuid : String)
    (defn : Option String) (st : DBState) :
    (kmsStoreStep env t uuid defn st).concept_kms_associations =
      st.concept_kms_associations := by
  unfold kmsStoreStep
  cases get_kms_embedding st uuid
  · cases env.embed (kmsText t.term defn) "kms" t.scheme
    · rfl
    · exact upsert_kms_embedding_kmsassoc ..
  · rfl

theorem kmsTermsLoop_emb (env : Env) (terms : List KMSTermRef)
    (seen : List (String × String)) (st : DBState) :
    (kmsTermsLoop env terms seen st).2.concept_embeddings = st.concept_embeddings := by
  induction terms generalizing seen st with
  | nil => rfl
  | cons t rest ih =>
    simp only [kmsTermsLoop]
    split
    · exact ih seen st
    · cases env.lookupTerm t.term t.scheme with
      | none => exact ih _ st
      | some ud => exact (ih _ _).trans (kmsStoreStep_emb ..)

theorem kmsTermsLoop_assoc (env : Env) (terms : List KMSTermRef)
    (seen : List (String × String)) (st : DBState) :
    (kmsTermsLoop env terms seen st).2.concept_associations = st.concept_associations := by
  induction terms generalizing seen st with
  | nil => rfl
  | cons t rest ih =>
    simp only [kmsTermsLoop]
    split
    · exact ih seen st
    · cases env.lookupTerm t.term t.scheme with
      | none => exact ih _ st
      | some ud => exact (ih _ _).trans (kmsStoreStep_assoc ..)

theorem kmsTermsLoop_kmsassoc (env : Env) (terms : List KMSTermRef)
    (seen : List (String × String)) (st : DBState) :
    (kmsTermsLoop env terms seen st).2.concept_kms_associations =
      st.concept_kms_associations := by
  induction terms generalizing seen st with
  | nil => rfl
  | cons t rest ih =>
    simp only [kmsTermsLoop]
    split
    · exact ih seen st
    · cases env.lookupTerm t.term t.scheme with
      | none => exact ih _ st
      | some ud => exact (ih _ _).trans (kmsStoreStep_kmsassoc ..)

theorem process_kms_terms_emb (env : Env) (terms : List KMSTermRef) (st : DBState) :
    (process_kms_terms env terms st).2.concept_embeddings = st.concept_embeddings :=
  kmsTermsLoop_emb env terms [] st

theorem process_kms_terms_assoc (env : Env) (terms : List KMSTermRef) (st : DBState) :
    (process_kms_terms env terms st).2.concept_associations = st.concept_associations :=
  kmsTermsLoop_assoc env terms [] st

theorem process_kms_terms_kmsassoc (env : Env) (terms : List KMSTermRef) (st : DBState) :
    (process_kms_terms env terms st).2.concept_kms_associations =
      st.concept_kms_associations :=
  kmsTermsLoop_kmsassoc env terms [] st

theorem upsert_concept_kms_associations_emb (st : DBState) (ct cid : String)
    (us : List String) :
    (upsert_concept_kms_associations st ct cid us).1.concept_embeddings =
      st.concept_embeddings := by
  unfold upsert_concept_kms_associations; split <;> rfl

theorem upsert_concept_kms_associations_assoc (st : DBState) (ct cid : String)
    (us : List String) :
    (upsert_concept_kms_associations st ct cid us).1.concept_associations =
      st.concept_associations := by
  unfold upsert_concept_kms_associations; split <;> rfl

theorem upsert_concept_kms_associations_kms (st : DBState) (ct cid : String)
    (us : List String) :
    (upsert_concept_kms_associations st ct cid us).1.kms_embeddings =
      st.kms_embeddings := by
  unfold upsert_concept_kms_associations; split <;> rfl

theorem upsert_associations_emb (st : DBState) (ct cid : String)
    (assocs : List (String × List String)) :
    (upsert_associations st ct cid assocs).1.concept_embeddings =
      st.concept_embeddings := by
  unfold upsert_associations; split <;> rfl

theorem upsert_associations_kms (st : DBState) (ct cid : String)
    (assocs : List (String × List String)) :
    (upsert_associations st ct cid assocs).1.kms_embeddings = st.kms_embeddings := by
  unfold upsert_associations; split <;> rfl

theorem upsert_associations_kmsassoc (st : DBState) (ct cid : String)
    (assocs : List (String × List String)) :
    (upsert_associations st ct cid assocs).1.concept_kms_associations =
      st.concept_kms_associations := by
  unfold upsert_associations; split <;> rfl

/-! ## Characterizing the state after one successful update -/

/-- The chunk rows a `concept-update` would store: the embedded extraction of
the fetched revision (`none` when the fetch or a chunk embedding fails). -/
def updateChunkRows (env : Env) (concept_type concept_id : String) (revision_id : Int) :
    Option (List ChunkRow) :=
  match env.fetchConcept concept_id (toString revision_id) with
  | .error _ => none
  | .ok md =>
    match embedAll env (extract_data concept_type concept_id md).chunks with
    | .error _ => none
    | .ok embedded => some (embedded.map fun c => ⟨concept_type, concept_id, c.1, c.2.1, c.2.2⟩)

/-- A successful update leaves `concept_embeddings` unchanged when the latest
extraction embeds to zero chunks, and otherwise full-replaces the concept's
rows with the embedded extraction. -/
theorem process_update_ok_embeddings (env : Env) (ct cid : String) (rid : Int)
    (st st' : DBState) (h : process_concept_update env ct cid rid st = .ok st') :
    ∃ rows, updateChunkRows env ct cid rid = some rows ∧
      st'.concept_embeddings =
        (if rows.isEmpty then st.concept_embeddings
         else st.concept_embeddings.filter (fun r => ¬ r.concept_id = cid) ++ rows) := by
  unfold process_concept_update at h
  cases hfetch : env.fetchConcept cid (toString rid) with
  | error e => simp only [hfetch] at h; cases h
  | ok md =>
    simp only [hfetch] at h
    cases hembed : embedAll env (extract_data ct cid md).chunks with
    | error e => simp only [hembed] at h; cases h
    | ok embedded =>
      simp only [hembed, Except.ok.injEq] at h
      refine ⟨embedded.map fun c => ⟨ct, cid, c.1, c.2.1, c.2.2⟩, by
        simp [updateChunkRows, hfetch, hembed], ?_⟩
      have hfinal : st'.concept_embeddings =
          ((upsert_chunks st ct cid embedded).1).concept_embeddings := by
        rw [← h]
        unfold updateCore
        simp only [apply_ite DBState.concept_embeddings, upsert_associations_emb,
          upsert_concept_kms_associations_emb, process_kms_terms_emb, ite_self]
      rw [hfinal]
      unfold upsert_chunks
      cases embedded <;> simp

/-! ## Claim C1 — stored chunks vs. the latest processed revision -/

/-- List of `concept_embeddings` rows currently stored for a concept. -/
def chunksFor (st : DBState) (concept_id : String) : List ChunkRow :=
  st.concept_embeddings.filter fun r => r.concept_id = concept_id

/-- A failed update computes no chunk rows: its failures are the fetch or a
chunk embedding, exactly the `none` cases of `updateChunkRows`. -/
theorem process_update_error_rows (env : Env) (ct cid : String) (rid : Int)
    (st : DBState) (e : HandlerErr)
    (h : process_concept_update env ct cid rid st = .error e) :
    updateChunkRows env ct cid rid = none := by
  unfold process_concept_update at h
  unfold updateChunkRows
  cases hfetch : env.fetchConcept cid (toString rid) with
  | error e2 => rfl
  | ok md =>
    simp only [hfetch] at h ⊢
    cases hembed : embedAll env (extract_data ct cid md).chunks with
    | error e2 => rfl
    | ok embedded => simp [hembed] at h

/-- Every row an update would store carries the update's `concept_id`. -/
theorem updateChunkRows_cid (env : Env) (ct cid : String) (rid : Int)
    (rows : List ChunkRow) (h : updateChunkRows env ct cid rid = some rows) :
    ∀ row ∈ rows, row.concept_id = cid := by
  unfold updateChunkRows at h
  cases hfetch : env.fetchConcept cid (toString rid) with
  | error e => simp [hfetch] at h
  | ok md =>
    simp only [hfetch] at h
    cases hembed : embedAll env (extract_data ct cid md).chunks with
    | error e => simp [hembed] at h
    | ok embedded =>
      simp only [hembed, Option.some.injEq] at h
      subst h
      intro row hrow
      obtain ⟨c, _, rfl⟩ := List.mem_map.mp hrow
      rfl

/-- A record of this concept's FIFO group that the embedding handler accepts:
parsed body, this `concept_id`, and a well-formed update or delete action. -/
def isConceptRecord (r : SqsRecord) (concept_id : String) : Bool :=
  match r.body with
  | none => false
  | some m =>
    m.concept_id == some concept_id &&
      ((m.action == some "concept-update" && m.concept_type.isSome && m.revision_id.isSome) ||
        m.action == some "concept-delete")

/-- What one processed message does to the concept's stored chunk list: a
delete empties it; a failed update leaves it; a successful update replaces it
unless the latest extraction embeds to zero chunks, in which case the previous
rows survive (`upsert_chunks` no-op). -/
def expectedChunkStep (env : Env) (cur : List ChunkRow) (r : SqsRecord) :
    List ChunkRow :=
  match r.body with
  | none => cur
  | some m =>
    if m.action = some "concept-update" then
      match m.concept_type, m.concept_id, m.revision_id with
      | some ct, some cid, some rid =>
        match updateChunkRows env ct cid rid with
        | none => cur
        | some rows => if rows.isEmpty then cur else rows
      | _, _, _ => cur
    else if m.action = some "concept-delete" then []
    else cur

theorem filter_not_filter_self (xs : List ChunkRow) (cid : String) :
    (xs.filter fun r => ¬ r.concept_id = cid).filter (fun r => r.concept_id = cid) = [] := by
  rw [List.filter_eq_nil_iff]
  intro r hr
  have := (List.mem_filter.mp hr).2
  simp_all

/-- Effect of one batch-loop iteration on the concept's stored chunks. -/
theorem chunksFor_step (env : Env) (r : SqsRecord) (cid : String) (st : DBState)
    (hr : isConceptRecord r cid = true) :
    chunksFor (match process_message env r st with | .ok s => s | .error _ => st) cid =
      expectedChunkStep env (chunksFor st cid) r := by
  unfold isConceptRecord at hr
  cases hbody : r.body with
  | none => rw [hbody] at hr; cases hr
  | some m =>
    rw [hbody] at hr
    simp only [Bool.and_eq_true, Bool.or_eq_true, beq_iff_eq, Option.isSome_iff_exists] at hr
    obtain ⟨hcid, hact⟩ := hr
    rcases hact with ⟨⟨hup, ⟨ct, hct⟩⟩, ⟨rid, hrid⟩⟩ | hdel
    · have hmsg : process_message env r st = process_concept_update env ct cid rid st := by
        unfold process_message
        simp [hbody, hup, hct, hcid, hrid]
      have hexp : expectedChunkStep env (chunksFor st cid) r =
          match updateChunkRows env ct cid rid with
          | none => chunksFor st cid
          | some rows => if rows.isEmpty then chunksFor st cid else rows := by
        unfold expectedChunkStep
        simp [hbody, hup, hct, hcid, hrid]
      rw [hmsg, hexp]
      cases hpu : process_concept_update env ct cid rid st with
      | ok st' =>
        obtain ⟨rows, hrows, hemb⟩ := process_update_ok_embeddings env ct cid rid st st' hpu
        simp only [hrows]
        unfold chunksFor
        rw [hemb]
        by_cases hempty : rows.isEmpty
        · rw [if_pos hempty, if_pos hempty]
        · rw [if_neg hempty, if_neg hempty, List.filter_append, filter_not_filter_self,
            List.nil_append, List.filter_eq_self.mpr]
          intro row hrow
          simpa using updateChunkRows_cid env ct cid rid rows hrows row hrow
      | error e =>
        simp only [process_update_error_rows env ct cid rid st e hpu]
    · have hmsg : process_message env r st = .ok (process_concept_delete cid st) := by
        unfold process_message
        simp [hbody, hdel, hcid]
      have hexp : expectedChunkStep env (chunksFor st cid) r = [] := by
        unfold expectedChunkStep
        simp [hbody, hdel]
      rw [hmsg, hexp]
      unfold chunksFor process_concept_delete delete_chunks
      simp only
      exact filter_not_filter_self _ cid

/-- Claim C1 (amended): for a FIFO sequence of this concept's messages, the
stored chunk set after the batch is the fold of `expectedChunkStep`: the
embedded extraction of the latest successfully processed update whose
extraction was non-empty (empty after a trailing delete), because an update
whose extraction yields zero chunks is an `upsert_chunks` no-op that leaves
the earlier revision's chunks in place. -/
theorem claim_C1_amended (env : Env) (records : List SqsRecord) (st : DBState)
    (cid : String) (h : ∀ r ∈ records, isConceptRecord r cid = true) :
    chunksFor (handler env records st).1 cid =
      records.foldl (expectedChunkStep env) (chunksFor st cid) := by
  induction records generalizing st with
  | nil => rfl
  | cons r rs ih =>
    rw [handler_cons, List.foldl_cons]
    have hstep := chunksFor_step env r cid st (h r (List.mem_cons_self r rs))
    have hrest : ∀ x ∈ rs, isConceptRecord x cid = true :=
      fun x hx => h x (List.mem_cons_of_mem r hx)
    cases hpm : process_message env r st with
    | ok st' =>
      rw [hpm] at hstep
      have hstep' : chunksFor st' cid = expectedChunkStep env (chunksFor st cid) r := hstep
      rw [ih st' hrest, hstep']
    | error e =>
      rw [hpm] at hstep
      have hstep' : chunksFor st cid = expectedChunkStep env (chunksFor st cid) r := hstep
      rw [ih st hrest]
      nth_rewrite 1 [hstep']
      rfl

/-- Environment for the C1 counterexample: revision 1 of concept `X` has a
`Name`, revision 2 has no extractable field at all; embedding always succeeds
and KMS always misses. -/
def envC1 : Env where
  fetchConcept := fun _ rev => if rev = "1" then .ok { Name := "T" } else .ok {}
  fetchAssociations := fun _ => []
  embed := fun _ _ _ => .ok [1]
  lookupTerm := fun _ _ => none
  now := 0

/-- Counterexample to C1: after processing update revision 1 (one chunk) and
then update revision 2 (whose extraction yields zero chunks), the stored
chunks for `X` still hold revision 1's row instead of the empty extraction of
the latest processed revision. -/
theorem claim_C1_counterexample :
    (handler envC1 [updateRecord "m1" "variable" "X" 1, updateRecord "m2" "variable" "X" 2] {}).2
      = [] ∧
    chunksFor
        (handler envC1
          [updateRecord "m1" "variable" "X" 1, updateRecord "m2" "variable" "X" 2] {}).1 "X" =
      [⟨"variable", "X", "name", "T", [1]⟩] ∧
    (extract_data "variable" "X" {}).chunks = [] := by
  refine ⟨rfl, rfl, rfl⟩

/-- Witness for C1 (amended) on a concrete two-update batch. -/
theorem claim_C1_witness :
    chunksFor
        (handler envC1
          [updateRecord "m1" "variable" "X" 1, updateRecord "m2" "variable" "X" 2] {}).1 "X" =
      [updateRecord "m1" "variable" "X" 1, updateRecord "m2" "variable" "X" 2].foldl
        (expectedChunkStep envC1) (chunksFor {} "X") :=
  claim_C1_amended envC1
    [updateRecord "m1" "variable" "X" 1, updateRecord "m2" "variable" "X" 2] {} "X"
    (by decide)

/-! ## Claim C2 — concept-KMS association rows vs. the latest update -/

/-- The uuids `process_kms_terms` collects, computed without the datastore:
the uuid is appended before the existence check, so the collected list depends
only on the KMS responses and the `(term, scheme)` dedup. -/
def collectedLoop (env : Env) : List KMSTermRef → List (String × String) → List String
  | [], _ => []
  | t :: rest, seen =>
    if (t.term, t.scheme) ∈ seen then collectedLoop env rest seen
    else
      match env.lookupTerm t.term t.scheme with
      | none => collectedLoop env rest ((t.term, t.scheme) :: seen)
      | some ud => ud.1 :: collectedLoop env rest ((t.term, t.scheme) :: seen)

/-- The deduplicated uuid list of the latest update's extraction whose lookup
succeeded. -/
def collectedUuids (env : Env) (terms : List KMSTermRef) : List String :=
  collectedLoop env terms []

theorem kmsTermsLoop_fst (env : Env) (terms : List KMSTermRef)
    (seen : List (String × String)) (st : DBState) :
    (kmsTermsLoop env terms seen st).1 = collectedLoop env terms seen := by
  induction terms generalizing seen st with
  | nil => rfl
  | cons t rest ih =>
    simp only [kmsTermsLoop, collectedLoop]
    split
    · exact ih seen st
    · cases env.lookupTerm t.term t.scheme with
      | none => exact ih _ st
      | some ud => simp only [ih _ _]

theorem process_kms_terms_fst (env : Env) (terms : List KMSTermRef) (st : DBState) :
    (process_kms_terms env terms st).1 = collectedUuids env terms :=
  kmsTermsLoop_fst env terms [] st

/-- First-occurrence dedup against an accumulator of already-inserted keys. -/
def dedupFirstAux (acc : List String) : List String → List String
  | [] => []
  | u :: rest =>
    if u ∈ acc then dedupFirstAux acc rest else u :: dedupFirstAux (u :: acc) rest

/-- First-occurrence dedup, the order `ON CONFLICT DO NOTHING` inserts keep. -/
def dedupFirst (us : List String) : List String :=
  dedupFirstAux [] us

/-- The `ON CONFLICT DO NOTHING` insert loop appends exactly the
first-occurrence-deduplicated rows not already present. -/
theorem kmsAssocInsertLoop_rows (ct cid : String) (us : List String)
    (T : List KmsAssocRow) (acc : List String)
    (hT : ∀ u, (⟨ct, cid, u⟩ : KmsAssocRow) ∈ T ↔ u ∈ acc) :
    (kmsAssocInsertLoop T ct cid us).1 =
      T ++ (dedupFirstAux acc us).map fun u => ⟨ct, cid, u⟩ := by
  induction us generalizing T acc with
  | nil => simp [kmsAssocInsertLoop, dedupFirstAux]
  | cons u rest ih =>
    simp only [kmsAssocInsertLoop, dedupFirstAux]
    by_cases hmem : u ∈ acc
    · rw [if_pos ((List.any_eq_true).mpr ⟨⟨ct, cid, u⟩, (hT u).mpr hmem, by simp⟩)]
      rw [if_pos hmem]
      exact ih T acc hT
    · have hnot : ¬ (⟨ct, cid, u⟩ : KmsAssocRow) ∈ T := fun hc => hmem ((hT u).mp hc)
      rw [if_neg (by
        intro hany
        obtain ⟨row, hrow, heq⟩ := List.any_eq_true.mp hany
        exact hnot ((of_decide_eq_true heq) ▸ hrow))]
      rw [if_neg hmem]
      simp only
      have hT' : ∀ v, (⟨ct, cid, v⟩ : KmsAssocRow) ∈
          T ++ [(⟨ct, cid, u⟩ : KmsAssocRow)] ↔ v ∈ u :: acc := by
        intro v
        simp only [List.mem_append, List.mem_singleton, List.mem_cons, hT v,
          KmsAssocRow.mk.injEq, true_and]
        tauto
      rw [ih (T ++ [(⟨ct, cid, u⟩ : KmsAssocRow)]) (u :: acc) hT']
      simp [List.append_assoc]

/-- The `concept_kms_associations` rows stored for a `(concept_type,
concept_id)` pair. -/
def kmsAssocFor (st : DBState) (concept_type concept_id : String) : List KmsAssocRow :=
  st.concept_kms_associations.filter fun r =>
    r.concept_type = concept_type ∧ r.concept_id = concept_id

theorem upsert_concept_kms_associations_rows (st : DBState) (ct cid : String)
    (us : List String) (hus : ¬ us.isEmpty) :
    (upsert_concept_kms_associations st ct cid us).1.concept_kms_associations =
      (st.concept_kms_associations.filter fun r =>
        ¬ (r.concept_type = ct ∧ r.concept_id = cid)) ++
        (dedupFirst us).map fun u => ⟨ct, cid, u⟩ := by
  unfold upsert_concept_kms_associations
  rw [if_neg hus]
  simp only
  exact kmsAssocInsertLoop_rows ct cid us _ [] (by
    intro u
    simp [List.mem_filter])

/-- A successful update's final `concept_kms_associations`: untouched when the
collected uuid list is empty (the handler skips the upsert), otherwise a full
replace of the concept's rows by the deduplicated collected uuids. -/
theorem process_update_ok_kmsassoc (env : Env) (ct cid : String) (rid : Int)
    (st st' : DBState) (md : Metadata)
    (hfetch : env.fetchConcept cid (toString rid) = .ok md)
    (h : process_concept_update env ct cid rid st = .ok st') :
    (collectedUuids env (extract_data ct cid md).kms_terms = [] →
      st'.concept_kms_associations = st.concept_kms_associations) ∧
    (collectedUuids env (extract_data ct cid md).kms_terms ≠ [] →
      st'.concept_kms_associations =
        (st.concept_kms_associations.filter fun r =>
          ¬ (r.concept_type = ct ∧ r.concept_id = cid)) ++
          (dedupFirst (collectedUuids env (extract_data ct cid md).kms_terms)).map
            fun u => ⟨ct, cid, u⟩) := by
  unfold process_concept_update at h
  simp only [hfetch] at h
  cases hembed : embedAll env (extract_data ct cid md).chunks with
  | error e => simp [hembed] at h
  | ok embedded =>
    simp only [hembed, Except.ok.injEq] at h
    have hbase :
        (process_kms_terms env (extract_data ct cid md).kms_terms
          (upsert_chunks st ct cid embedded).1).2.concept_kms_associations =
          st.concept_kms_associations :=
      (process_kms_terms_kmsassoc ..).trans (upsert_chunks_kmsassoc ..)
    have huuids :
        (process_kms_terms env (extract_data ct cid md).kms_terms
          (upsert_chunks st ct cid embedded).1).1 =
          collectedUuids env (extract_data ct cid md).kms_terms :=
      process_kms_terms_fst ..
    have hfinal : st'.concept_kms_associations =
        (if (collectedUuids env (extract_data ct cid md).kms_terms).isEmpty then
          (process_kms_terms env (extract_data ct cid md).kms_terms
            (upsert_chunks st ct cid embedded).1).2
        else
          (upsert_concept_kms_associations
            (process_kms_terms env (extract_data ct cid md).kms_terms
              (upsert_chunks st ct cid embedded).1).2 ct cid
            (collectedUuids env (extract_data ct cid md).kms_terms)).1).concept_kms_associations
        := by
      rw [← h, ← huuids]
      unfold updateCore
      simp only [apply_ite DBState.concept_kms_associations, upsert_associations_kmsassoc,
        ite_self]
    constructor
    · intro hempty
      rw [hfinal, if_pos (by simp [hempty]), hbase]
    · intro hne
      rw [hfinal, if_neg (by simpa [List.isEmpty_iff] using hne),
        upsert_concept_kms_associations_rows _ ct cid _
          (by simpa [List.isEmpty_iff] using hne), hbase]

/-- Environment for the C2 counterexample: revision 1 of variable `Y` carries
one science keyword that KMS resolves; revision 2 has no metadata at all. -/
def envC2 : Env where
  fetchConcept := fun _ rev =>
    if rev = "1" then .ok { Name := "n", ScienceKeywords := [{ Term := "X" }] } else .ok {}
  fetchAssociations := fun _ => []
  embed := fun _ _ _ => .ok [1]
  lookupTerm := fun term scheme =>
    if term = "X" ∧ scheme = "sciencekeywords" then some ("u-x", none) else none
  now := 0

/-- Counterexample to C2: after update revision 1 (one resolved keyword) and
update revision 2 (whose extraction produces no KMS terms, so the collected
uuid list is empty and the upsert is skipped), the association row of the
earlier update is still stored, not the empty set of the latest extraction. -/
theorem claim_C2_counterexample :
    (handler envC2 [updateRecord "m1" "variable" "Y" 1, updateRecord "m2" "variable" "Y" 2] {}).2
      = [] ∧
    kmsAssocFor
        (handler envC2
          [updateRecord "m1" "variable" "Y" 1, updateRecord "m2" "variable" "Y" 2] {}).1
        "variable" "Y" =
      [⟨"variable", "Y", "u-x"⟩] ∧
    collectedUuids envC2 (extract_data "variable" "Y" {}).kms_terms = [] := by
  refine ⟨rfl, rfl, rfl⟩

/-- Claim C2 (amended): after a successful update whose collected uuid list
(deduplicated extraction uuids with successful `lookup_term`) is non-empty,
the association rows for `(concept_type, concept_id)` are exactly that
deduplicated list; but when the collected list is empty the handler skips
`upsert_concept_kms_associations` entirely and association rows from an
earlier update remain. -/
theorem claim_C2_amended (env : Env) (ct cid : String) (rid : Int)
    (st st' : DBState) (md : Metadata)
    (hfetch : env.fetchConcept cid (toString rid) = .ok md)
    (h : process_concept_update env ct cid rid st = .ok st') :
    (collectedUuids env (extract_data ct cid md).kms_terms ≠ [] →
      kmsAssocFor st' ct cid =
        (dedupFirst (collectedUuids env (extract_data ct cid md).kms_terms)).map
          fun u => ⟨ct, cid, u⟩) ∧
    (collectedUuids env (extract_data ct cid md).kms_terms = [] →
      st'.concept_kms_associations = st.concept_kms_associations) := by
  obtain ⟨hempty, hne⟩ := process_update_ok_kmsassoc env ct cid rid st st' md hfetch h
  refine ⟨?_, hempty⟩
  intro h1
  unfold kmsAssocFor
  rw [hne h1, List.filter_append]
  have h2 : (st.concept_kms_associations.filter fun r =>
      ¬ (r.concept_type = ct ∧ r.concept_id = cid)).filter
        (fun r => r.concept_type = ct ∧ r.concept_id = cid) = [] := by
    rw [List.filter_eq_nil_iff]
    intro r hr
    have := (List.mem_filter.mp hr).2
    simp_all
    tauto
  rw [h2, List.nil_append, List.filter_eq_self.mpr]
  intro row hrow
  obtain ⟨u, _, rfl⟩ := List.mem_map.mp hrow
  simp

/-- The state after processing revision 1 of the C2 environment. -/
def c2State1 : DBState :=
  match process_concept_update envC2 "variable" "Y" 1 {} with
  | .ok s => s
  | .error _ => {}

/-- Witness for C2 (amended) at the concrete counterexample environment:
revision 1 stores exactly the single resolved uuid for `(variable, Y)`. -/
theorem claim_C2_witness :
    kmsAssocFor c2State1 "variable" "Y" = [⟨"variable", "Y", "u-x"⟩] := by
  have h := (claim_C2_amended envC2 "variable" "Y" 1 {} c2State1
    { Name := "n", ScienceKeywords := [{ Term := "X" }] } rfl rfl).1 (by decide)
  rw [h]
  rfl

/-! ## KMS store machinery: lookups, counts and replay -/

theorem kmsStoreStep_of_get_some (env : Env) (t : KMSTermRef) (uuid : String)
    (defn : Option String) (st : DBState) (r : KmsRow)
    (h : get_kms_embedding st uuid = some r) :
    kmsStoreStep env t uuid defn st = st := by
  unfold kmsStoreStep
  rw [h]

theorem get_kms_embedding_insert_self (st : DBState) (u s t : String)
    (d : Option String) (e : Vec) (n : Nat) (h : get_kms_embedding st u = none) :
    get_kms_embedding (upsert_kms_embedding st u s t d e n).1 u =
      some ⟨u, s, t, d, e, n⟩ := by
  unfold upsert_kms_embedding
  rw [h]
  unfold get_kms_embedding at h ⊢
  simp only
  rw [List.find?_append, h]
  simp

theorem get_kms_embedding_insert_preserve (st : DBState) (u s t : String)
    (d : Option String) (e : Vec) (n : Nat) (v : String) (r : KmsRow)
    (hu : get_kms_embedding st u = none) (h : get_kms_embedding st v = some r) :
    get_kms_embedding (upsert_kms_embedding st u s t d e n).1 v = some r := by
  unfold upsert_kms_embedding
  rw [hu]
  unfold get_kms_embedding at h ⊢
  simp only
  rw [List.find?_append, h]
  rfl

theorem kmsStoreStep_get_preserve (env : Env) (t : KMSTermRef) (uuid : String)
    (defn : Option String) (st : DBState) (v : String) (r : KmsRow)
    (h : get_kms_embedding st v = some r) :
    get_kms_embedding (kmsStoreStep env t uuid defn st) v = some r := by
  unfold kmsStoreStep
  cases hget : get_kms_embedding st uuid with
  | some _ => exact h
  | none =>
    cases env.embed (kmsText t.term defn) "kms" t.scheme with
    | error _ => exact h
    | ok emb =>
      exact get_kms_embedding_insert_preserve st uuid t.scheme t.term defn emb env.now v r
        hget h

theorem kmsTermsLoop_get_preserve (env : Env) (terms : List KMSTermRef)
    (seen : List (String × String)) (st : DBState) (v : String) (r : KmsRow)
    (h : get_kms_embedding st v = some r) :
    get_kms_embedding (kmsTermsLoop env terms seen st).2 v = some r := by
  induction terms generalizing seen st with
  | nil => exact h
  | cons t rest ih =>
    simp only [kmsTermsLoop]
    split
    · exact ih seen st h
    · cases env.lookupTerm t.term t.scheme with
      | none => exact ih _ st h
      | some ud =>
        exact ih _ _ (kmsStoreStep_get_preserve env t ud.1 ud.2 st v r h)

theorem kmsStoreStep_kms_congr (env : Env) (t : KMSTermRef) (uuid : String)
    (defn : Option String) (s u : DBState)
    (h : s.kms_embeddings = u.kms_embeddings) :
    (kmsStoreStep env t uuid defn s).kms_embeddings =
      (kmsStoreStep env t uuid defn u).kms_embeddings := by
  have hget : get_kms_embedding s uuid = get_kms_embedding u uuid := by
    unfold get_kms_embedding
    rw [h]
  unfold kmsStoreStep
  cases hg : get_kms_embedding u uuid with
  | some r => rw [hget, hg]; exact h
  | none =>
    rw [hget, hg]
    cases env.embed (kmsText t.term defn) "kms" t.scheme with
    | error _ => exact h
    | ok emb =>
      unfold upsert_kms_embedding
      have hget2 : get_kms_embedding s uuid = get_kms_embedding u uuid := hget
      rw [hget2, hg]
      simp only
      rw [h]

theorem kmsTermsLoop_kms_congr (env : Env) (terms : List KMSTermRef)
    (seen : List (String × String)) (s u : DBState)
    (h : s.kms_embeddings = u.kms_embeddings) :
    (kmsTermsLoop env terms seen s).1 = (kmsTermsLoop env terms seen u).1 ∧
    (kmsTermsLoop env terms seen s).2.kms_embeddings =
      (kmsTermsLoop env terms seen u).2.kms_embeddings := by
  induction terms generalizing seen s u with
  | nil => exact ⟨rfl, h⟩
  | cons t rest ih =>
    simp only [kmsTermsLoop]
    split
    · exact ih seen s u h
    · cases env.lookupTerm t.term t.scheme with
      | none => exact ih _ s u h
      | some ud =>
        obtain ⟨uuid, defn⟩ := ud
        have hstep := kmsStoreStep_kms_congr env t uuid defn s u h
        have hrest := ih ((t.term, t.scheme) :: seen) _ _ hstep
        refine ⟨?_, hrest.2⟩
        show uuid :: (kmsTermsLoop env rest ((t.term, t.scheme) :: seen)
            (kmsStoreStep env t uuid defn s)).1 =
          uuid :: (kmsTermsLoop env rest ((t.term, t.scheme) :: seen)
            (kmsStoreStep env t uuid defn u)).1
        rw [hrest.1]

/-- Replaying `process_kms_terms` over its own output state collects the same
uuids and changes nothing. -/
theorem kmsTermsLoop_replay (env : Env) (terms : List KMSTermRef)
    (seen : List (String × String)) (st : DBState) :
    kmsTermsLoop env terms seen (kmsTermsLoop env terms seen st).2 =
      ((kmsTermsLoop env terms seen st).1, (kmsTermsLoop env terms seen st).2) := by
  induction terms generalizing seen st with
  | nil => rfl
  | cons t rest ih =>
    by_cases hseen : (t.term, t.scheme) ∈ seen
    · simp only [kmsTermsLoop, if_pos hseen]
      exact ih seen st
    · cases hlook : env.lookupTerm t.term t.scheme with
      | none =>
        simp only [kmsTermsLoop, if_neg hseen, hlook]
        exact ih _ st
      | some ud =>
        obtain ⟨uuid, defn⟩ := ud
        have hexpand : kmsTermsLoop env (t :: rest) seen st =
            (uuid :: (kmsTermsLoop env rest ((t.term, t.scheme) :: seen)
                (kmsStoreStep env t uuid defn st)).1,
              (kmsTermsLoop env rest ((t.term, t.scheme) :: seen)
                (kmsStoreStep env t uuid defn st)).2) := by
          simp only [kmsTermsLoop, if_neg hseen, hlook]
        have hstep2 : kmsStoreStep env t uuid defn
            (kmsTermsLoop env rest ((t.term, t.scheme) :: seen)
              (kmsStoreStep env t uuid defn st)).2 =
            (kmsTermsLoop env rest ((t.term, t.scheme) :: seen)
              (kmsStoreStep env t uuid defn st)).2 := by
          cases hget : get_kms_embedding st uuid with
          | some r =>
            exact kmsStoreStep_of_get_some env t uuid defn _ r
              (kmsTermsLoop_get_preserve env rest _ _ uuid r
                (by rw [kmsStoreStep_of_get_some env t uuid defn st r hget]; exact hget))
          | none =>
            cases hemb : env.embed (kmsText t.term defn) "kms" t.scheme with
            | error e =>
              have hstep1 : kmsStoreStep env t uuid defn st = st := by
                unfold kmsStoreStep
                rw [hget, hemb]
              rw [hstep1]
              cases hget2 : get_kms_embedding
                  (kmsTermsLoop env rest ((t.term, t.scheme) :: seen) st).2 uuid with
              | some r => exact kmsStoreStep_of_get_some env t uuid defn _ r hget2
              | none =>
                unfold kmsStoreStep
                rw [hget2, hemb]
            | ok emb =>
              have hstep1 : kmsStoreStep env t uuid defn st =
                  (upsert_kms_embedding st uuid t.scheme t.term defn emb env.now).1 := by
                unfold kmsStoreStep
                rw [hget, hemb]
              have hins := get_kms_embedding_insert_self st uuid t.scheme t.term defn emb
                env.now hget
              rw [hstep1]
              exact kmsStoreStep_of_get_some env t uuid defn _ _
                (kmsTermsLoop_get_preserve env rest _ _ uuid _ hins)
        rw [hexpand]
        simp only [kmsTermsLoop, if_neg hseen, hlook]
        rw [hstep2, ih]

/-! ## Claim C4 — kms_embeddings row counts per uuid -/

/-- Number of `kms_embeddings` rows stored for a uuid. -/
def countRows (K : List KmsRow) (u : String) : Nat :=
  (K.filter fun r => r.kms_uuid = u).length

theorem countRows_append (K1 K2 : List KmsRow) (u : String) :
    countRows (K1 ++ K2) u = countRows K1 u + countRows K2 u := by
  simp [countRows, List.filter_append]

theorem get_none_countRows (st : DBState) (u : String)
    (h : get_kms_embedding st u = none) : countRows st.kms_embeddings u = 0 := by
  unfold get_kms_embedding at h
  unfold countRows
  rw [List.length_eq_zero, List.filter_eq_nil_iff]
  intro r hr
  have := List.find?_eq_none.mp h r hr
  simpa using this

theorem get_some_countRows_pos (st : DBState) (u : String) (r : KmsRow)
    (h : get_kms_embedding st u = some r) : 1 ≤ countRows st.kms_embeddings u := by
  unfold get_kms_embedding at h
  have hmem : r ∈ st.kms_embeddings := List.mem_of_find?_eq_some h
  have hpred : r.kms_uuid = u := by simpa using List.find?_some h
  unfold countRows
  have : r ∈ st.kms_embeddings.filter fun x => x.kms_uuid = u :=
    List.mem_filter.mpr ⟨hmem, by simp [hpred]⟩
  exact List.length_pos.mpr (List.ne_nil_of_mem this)

/-- How one store step changes the per-uuid counts: either nothing changes, or
a fresh row for exactly the stored uuid appears. -/
theorem kmsStoreStep_countRows (env : Env) (t : KMSTermRef) (uuid : String)
    (defn : Option String) (st : DBState) (v : String) :
    countRows (kmsStoreStep env t uuid defn st).kms_embeddings v =
        countRows st.kms_embeddings v ∨
      (v = uuid ∧ countRows st.kms_embeddings v = 0 ∧
        countRows (kmsStoreStep env t uuid defn st).kms_embeddings v =
          countRows st.kms_embeddings v + 1) := by
  unfold kmsStoreStep
  cases hget : get_kms_embedding st uuid with
  | some r => exact Or.inl rfl
  | none =>
    cases env.embed (kmsText t.term defn) "kms" t.scheme with
    | error _ => exact Or.inl rfl
    | ok emb =>
      unfold upsert_kms_embedding
      rw [hget]
      simp only
      by_cases hv : v = uuid
      · subst hv
        refine Or.inr ⟨rfl, get_none_countRows st v hget, ?_⟩
        rw [countRows_append]
        simp [countRows]
      · refine Or.inl ?_
        rw [countRows_append]
        have hne : ¬ uuid = v := fun h => hv h.symm
        have : countRows [(⟨uuid, t.scheme, t.term, defn, emb, env.now⟩ : KmsRow)] v = 0 := by
          simp [countRows, hne]
        simp [this]

theorem kmsStoreStep_uniq (env : Env) (t : KMSTermRef) (uuid : String)
    (defn : Option String) (st : DBState)
    (h : ∀ u, countRows st.kms_embeddings u ≤ 1) :
    ∀ u, countRows (kmsStoreStep env t uuid defn st).kms_embeddings u ≤ 1 := by
  intro u
  rcases kmsStoreStep_countRows env t uuid defn st u with heq | ⟨_, hzero, hsucc⟩
  · rw [heq]; exact h u
  · rw [hsucc, hzero]

theorem kmsStoreStep_count_one (env : Env) (t : KMSTermRef) (uuid : String)
    (defn : Option String) (st : DBState) (v : String)
    (h : countRows st.kms_embeddings v = 1) :
    countRows (kmsStoreStep env t uuid defn st).kms_embeddings v = 1 := by
  rcases kmsStoreStep_countRows env t uuid defn st v with heq | ⟨_, hzero, _⟩
  · rw [heq]; exact h
  · rw [hzero] at h; cases h

theorem kmsTermsLoop_uniq (env : Env) (terms : List KMSTermRef)
    (seen : List (String × String)) (st : DBState)
    (h : ∀ u, countRows st.kms_embeddings u ≤ 1) :
    ∀ u, countRows (kmsTermsLoop env terms seen st).2.kms_embeddings u ≤ 1 := by
  induction terms generalizing seen st with
  | nil => exact h
  | cons t rest ih =>
    simp only [kmsTermsLoop]
    split
    · exact ih seen st h
    · cases env.lookupTerm t.term t.scheme with
      | none => exact ih _ st h
      | some ud => exact ih _ _ (kmsStoreStep_uniq env t ud.1 ud.2 st h)

theorem kmsTermsLoop_count_one (env : Env) (terms : List KMSTermRef)
    (seen : List (String × String)) (st : DBState) (v : String)
    (h : countRows st.kms_embeddings v = 1) :
    countRows (kmsTermsLoop env terms seen st).2.kms_embeddings v = 1 := by
  induction terms generalizing seen st with
  | nil => exact h
  | cons t rest ih =>
    simp only [kmsTermsLoop]
    split
    · exact ih seen st h
    · cases env.lookupTerm t.term t.scheme with
      | none => exact ih _ st h
      | some ud => exact ih _ _ (kmsStoreStep_count_one env t ud.1 ud.2 st v h)

/-- With a never-failing embedder, every collected uuid ends with exactly one
`kms_embeddings` row. -/
theorem kmsTermsLoop_collected_one (env : Env) (terms : List KMSTermRef)
    (seen : List (String × String)) (st : DBState)
    (huniq : ∀ u, countRows st.kms_embeddings u ≤ 1)
    (hembed : ∀ text ct a, (env.embed text ct a).isOk = true) :
    ∀ u ∈ (kmsTermsLoop env terms seen st).1,
      countRows (kmsTermsLoop env terms seen st).2.kms_embeddings u = 1 := by
  induction terms generalizing seen st with
  | nil => intro u hu; cases hu
  | cons t rest ih =>
    by_cases hseen : (t.term, t.scheme) ∈ seen
    · simp only [kmsTermsLoop, if_pos hseen]
      exact ih seen st huniq
    · cases hlook : env.lookupTerm t.term t.scheme with
      | none =>
        simp only [kmsTermsLoop, if_neg hseen, hlook]
        exact ih _ st huniq
      | some ud =>
        obtain ⟨uuid, defn⟩ := ud
        simp only [kmsTermsLoop, if_neg hseen, hlook]
        intro u hu
        have huniq' := kmsStoreStep_uniq env t uuid defn st huniq
        rcases List.mem_cons.mp hu with heq | hmem
        · have hcore : countRows (kmsStoreStep env t uuid defn st).kms_embeddings uuid = 1 := by
            cases hget : get_kms_embedding st uuid with
            | some r =>
              rw [kmsStoreStep_of_get_some env t uuid defn st r hget]
              exact le_antisymm (huniq uuid) (get_some_countRows_pos st uuid r hget)
            | none =>
              cases hemb : env.embed (kmsText t.term defn) "kms" t.scheme with
              | error e =>
                have hok := hembed (kmsText t.term defn) "kms" t.scheme
                rw [hemb] at hok
                simp [Except.isOk, Except.toBool] at hok
              | ok emb =>
                have hstep1 : kmsStoreStep env t uuid defn st =
                    (upsert_kms_embedding st uuid t.scheme t.term defn emb env.now).1 := by
                  unfold kmsStoreStep
                  rw [hget, hemb]
                have happ : (upsert_kms_embedding st uuid t.scheme t.term defn emb
                    env.now).1.kms_embeddings =
                    st.kms_embeddings ++ [⟨uuid, t.scheme, t.term, defn, emb, env.now⟩] := by
                  unfold upsert_kms_embedding
                  rw [hget]
                rw [hstep1, happ, countRows_append, get_none_countRows st uuid hget]
                simp [countRows]
          rw [heq]
          exact kmsTermsLoop_count_one env rest _ _ uuid hcore
        · exact ih _ _ huniq' u hmem

/-- Environment for the C4 counterexample: the lookup resolves the term but
the embedder raises `EmbeddingError`. -/
def envC4 : Env where
  fetchConcept := fun _ _ => .error "unused"
  fetchAssociations := fun _ => []
  embed := fun _ _ _ => .error "model down"
  lookupTerm := fun _ _ => some ("u1", none)
  now := 0

/-- Counterexample to C4: a uuid returned by a successful `lookup_term` is
collected into the association list, but when embedding the newly seen term
raises `EmbeddingError` the handler skips the store, so zero rows — not
exactly one — exist for that uuid afterwards. -/
theorem claim_C4_counterexample :
    process_kms_terms envC4 [⟨"TERRA", "platforms"⟩] {} = (["u1"], {}) ∧
    countRows (process_kms_terms envC4 [⟨"TERRA", "platforms"⟩] {}).2.kms_embeddings "u1"
      = 0 := by
  constructor <;> rfl

/-- Claim C4 (amended): per seen uuid, `kms_embeddings` keeps at most one row
(given the table was keyed by uuid to begin with); a uuid that already had its
row keeps exactly one; a collected uuid has exactly one row whenever the
embedder never fails — but a newly seen uuid whose embedding generation raises
`EmbeddingError` is collected with zero rows stored.  Re-processing the same
terms over the produced state collects the same uuids and changes nothing, so
row counts never change on re-seeing. -/
theorem claim_C4_amended (env : Env) (terms : List KMSTermRef) (st : DBState)
    (huniq : ∀ u, countRows st.kms_embeddings u ≤ 1) :
    (∀ u, countRows (process_kms_terms env terms st).2.kms_embeddings u ≤ 1) ∧
    (∀ u, countRows st.kms_embeddings u = 1 →
      countRows (process_kms_terms env terms st).2.kms_embeddings u = 1) ∧
    ((∀ text ct a, (env.embed text ct a).isOk = true) →
      ∀ u ∈ (process_kms_terms env terms st).1,
        countRows (process_kms_terms env terms st).2.kms_embeddings u = 1) ∧
    process_kms_terms env terms (process_kms_terms env terms st).2 =
      ((process_kms_terms env terms st).1, (process_kms_terms env terms st).2) :=
  ⟨kmsTermsLoop_uniq env terms [] st huniq,
    fun u => kmsTermsLoop_count_one env terms [] st u,
    kmsTermsLoop_collected_one env terms [] st huniq,
    kmsTermsLoop_replay env terms [] st⟩

/-- Witness for C4 (amended) on a concrete run: one resolved term with a
working embedder yields exactly one row for its uuid, and replay is the
identity. -/
theorem claim_C4_witness :
    countRows (process_kms_terms envC2 [⟨"X", "sciencekeywords"⟩] {}).2.kms_embeddings "u-x"
      = 1 ∧
    process_kms_terms envC2 [⟨"X", "sciencekeywords"⟩]
        (process_kms_terms envC2 [⟨"X", "sciencekeywords"⟩] {}).2 =
      ((process_kms_terms envC2 [⟨"X", "sciencekeywords"⟩] {}).1,
        (process_kms_terms envC2 [⟨"X", "sciencekeywords"⟩] {}).2) := by
  have h := claim_C4_amended envC2 [⟨"X", "sciencekeywords"⟩] {} (by
    intro u
    simp [countRows])
  refine ⟨h.2.2.1 (by intro text ct a; rfl) "u-x" (by decide), h.2.2.2⟩

/-! ## Claim C3 — replay idempotence of a concept update -/

theorem dbstate_eq (a b : DBState)
    (h1 : a.concept_embeddings = b.concept_embeddings)
    (h2 : a.concept_associations = b.concept_associations)
    (h3 : a.kms_embeddings = b.kms_embeddings)
    (h4 : a.concept_kms_associations = b.concept_kms_associations) : a = b := by
  cases a; cases b; simp_all

/-- Re-running the chunk full-replace over its own output changes nothing. -/
theorem upsert_chunks_emb_replay (s t : DBState) (ct cid : String)
    (embedded : List (String × String × Vec))
    (h : s.concept_embeddings = (upsert_chunks t ct cid embedded).1.concept_embeddings) :
    (upsert_chunks s ct cid embedded).1.concept_embeddings = s.concept_embeddings := by
  unfold upsert_chunks at h ⊢
  by_cases he : embedded.isEmpty
  · rw [if_pos he]
  · rw [if_neg he] at h ⊢
    simp only at h ⊢
    rw [h, List.filter_append]
    have h1 : ((t.concept_embeddings.filter fun r => ¬ r.concept_id = cid).filter
        fun r => ¬ r.concept_id = cid) =
        t.concept_embeddings.filter fun r => ¬ r.concept_id = cid :=
      List.filter_eq_self.mpr fun x hx => (List.mem_filter.mp hx).2
    have h2 : ((embedded.map fun c =>
        (⟨ct, cid, c.1, c.2.1, c.2.2⟩ : ChunkRow)).filter
          fun r => ¬ r.concept_id = cid) = [] := by
      rw [List.filter_eq_nil_iff]
      intro r hr
      obtain ⟨c, _, rfl⟩ := List.mem_map.mp hr
      simp
    rw [h1, h2, List.append_nil]

/-- Re-running the concept-KMS full-replace over its own output changes
nothing. -/
theorem upsert_concept_kms_associations_replay (s base : DBState) (ct cid : String)
    (us : List String) (hus : ¬ us.isEmpty)
    (h : s.concept_kms_associations =
      (upsert_concept_kms_associations base ct cid us).1.concept_kms_associations) :
    (upsert_concept_kms_associations s ct cid us).1.concept_kms_associations =
      s.concept_kms_associations := by
  rw [upsert_concept_kms_associations_rows base ct cid us hus] at h
  rw [upsert_concept_kms_associations_rows s ct cid us hus, h, List.filter_append]
  have h1 : ((base.concept_kms_associations.filter fun r =>
      ¬ (r.concept_type = ct ∧ r.concept_id = cid)).filter fun r =>
        ¬ (r.concept_type = ct ∧ r.concept_id = cid)) =
      base.concept_kms_associations.filter fun r =>
        ¬ (r.concept_type = ct ∧ r.concept_id = cid) :=
    List.filter_eq_self.mpr fun x hx => (List.mem_filter.mp hx).2
  have h2 : (((dedupFirst us).map fun u => (⟨ct, cid, u⟩ : KmsAssocRow)).filter fun r =>
      ¬ (r.concept_type = ct ∧ r.concept_id = cid)) = [] := by
    rw [List.filter_eq_nil_iff]
    intro r hr
    obtain ⟨u, _, rfl⟩ := List.mem_map.mp hr
    simp
  rw [h1, h2, List.append_nil]

/-- The association insert loop only appends rows, all owned by the left
concept. -/
theorem assocInsertLoop_shape (ct cid rtype : String) (rids : List String)
    (T : List AssocRow) :
    ∃ extra, (assocInsertLoop T ct cid rtype rids).1 = T ++ extra ∧
      ∀ row ∈ extra, row.left_concept_id = cid := by
  induction rids generalizing T with
  | nil => exact ⟨[], by simp [assocInsertLoop], by intro row h; cases h⟩
  | cons rid rest ih =>
    simp only [assocInsertLoop]
    split
    · obtain ⟨extra, he, hp⟩ := ih T
      exact ⟨extra, by simp only [he], hp⟩
    · obtain ⟨extra, he, hp⟩ := ih (T ++ [⟨ct, cid, rtype, rid⟩])
      refine ⟨⟨ct, cid, rtype, rid⟩ :: extra, ?_, ?_⟩
      · simp only [he, List.append_assoc, List.singleton_append]
      · intro row hrow
        rcases List.mem_cons.mp hrow with rfl | hmem
        · rfl
        · exact hp row hmem

/-- The association table the upsert stores from a given base. -/
def assocTableAfter (base : List AssocRow) (ct cid : String)
    (associations : List (String × List String)) : List AssocRow :=
  (assocInsertLoop
    (assocInsertLoop base ct cid "variable" (assocGet associations "variables")).1
    ct cid "citation" (assocGet associations "citations")).1

theorem upsert_associations_rows (st : DBState) (ct cid : String)
    (associations : List (String × List String)) (hne : ¬ associations.isEmpty) :
    (upsert_associations st ct cid associations).1.concept_associations =
      assocTableAfter
        (st.concept_associations.filter fun r => ¬ r.left_concept_id = cid)
        ct cid associations := by
  unfold upsert_associations assocTableAfter
  rw [if_neg hne]

theorem assocTableAfter_base_stable (base : List AssocRow) (ct cid : String)
    (associations : List (String × List String))
    (hbase : ∀ row ∈ base, ¬ row.left_concept_id = cid) :
    (assocTableAfter base ct cid associations).filter
        (fun r => ¬ r.left_concept_id = cid) = base := by
  obtain ⟨e1, he1, hp1⟩ :=
    assocInsertLoop_shape ct cid "variable" (assocGet associations "variables") base
  obtain ⟨e2, he2, hp2⟩ :=
    assocInsertLoop_shape ct cid "citation" (assocGet associations "citations")
      (assocInsertLoop base ct cid "variable" (assocGet associations "variables")).1
  unfold assocTableAfter
  rw [he2, he1, List.filter_append, List.filter_append]
  have hb : base.filter (fun r => ¬ r.left_concept_id = cid) = base :=
    List.filter_eq_self.mpr fun x hx => by simpa using hbase x hx
  have hextra : ∀ (e : List AssocRow), (∀ row ∈ e, row.left_concept_id = cid) →
      e.filter (fun r => ¬ r.left_concept_id = cid) = [] := by
    intro e hp
    rw [List.filter_eq_nil_iff]
    intro r hr
    simpa using hp r hr
  rw [hb, hextra e1 hp1, hextra e2 hp2, List.append_nil, List.append_nil]

/-- Re-running the association full-replace over its own output changes
nothing. -/
theorem upsert_associations_result_replay (s : DBState) (ct cid : String)
    (associations : List (String × List String)) (base : List AssocRow)
    (hne : ¬ associations.isEmpty)
    (hbase : ∀ row ∈ base, ¬ row.left_concept_id = cid)
    (h : s.concept_associations = assocTableAfter base ct cid associations) :
    (upsert_associations s ct cid associations).1.concept_associations =
      s.concept_associations := by
  rw [upsert_associations_rows s ct cid associations hne, h,
    assocTableAfter_base_stable base ct cid associations hbase]

/-! ### The four tables after `updateCore` -/

theorem updateCore_emb (env : Env) (ct cid : String) (ex : ExtractionResult)
    (embedded : List (String × String × Vec)) (st : DBState) :
    (updateCore env ct cid ex embedded st).concept_embeddings =
      (upsert_chunks st ct cid embedded).1.concept_embeddings := by
  unfold updateCore
  simp only [apply_ite DBState.concept_embeddings, upsert_associations_emb,
    upsert_concept_kms_associations_emb, process_kms_terms_emb, ite_self]

theorem updateCore_kms (env : Env) (ct cid : String) (ex : ExtractionResult)
    (embedded : List (String × String × Vec)) (st : DBState) :
    (updateCore env ct cid ex embedded st).kms_embeddings =
      (process_kms_terms env ex.kms_terms
        (upsert_chunks st ct cid embedded).1).2.kms_embeddings := by
  unfold updateCore
  simp only [apply_ite DBState.kms_embeddings, upsert_associations_kms,
    upsert_concept_kms_associations_kms, ite_self]

theorem updateCore_kmsassoc (env : Env) (ct cid : String) (ex : ExtractionResult)
    (embedded : List (String × String × Vec)) (st : DBState) :
    (updateCore env ct cid ex embedded st).concept_kms_associations =
      (if (process_kms_terms env ex.kms_terms
            (upsert_chunks st ct cid embedded).1).1.isEmpty then
        (process_kms_terms env ex.kms_terms
          (upsert_chunks st ct cid embedded).1).2.concept_kms_associations
      else
        (upsert_concept_kms_associations
          (process_kms_terms env ex.kms_terms (upsert_chunks st ct cid embedded).1).2
          ct cid
          (process_kms_terms env ex.kms_terms
            (upsert_chunks st ct cid embedded).1).1).1.concept_kms_associations) := by
  unfold updateCore
  simp only [apply_ite DBState.concept_kms_associations, upsert_associations_kmsassoc,
    ite_self]

theorem updateCore_assoc (env : Env) (ct cid : String) (ex : ExtractionResult)
    (embedded : List (String × String × Vec)) (st : DBState) :
    (updateCore env ct cid ex embedded st).concept_associations =
      (if ct = "collection" then
        (if (env.fetchAssociations cid).isEmpty then st.concept_associations
         else assocTableAfter
           (st.concept_associations.filter fun r => ¬ r.left_concept_id = cid)
           ct cid (env.fetchAssociations cid))
      else st.concept_associations) := by
  have hst3 : ∀ s : DBState,
      ((if (process_kms_terms env ex.kms_terms s).1.isEmpty then
          (process_kms_terms env ex.kms_terms s).2
        else (upsert_concept_kms_associations (process_kms_terms env ex.kms_terms s).2
          ct cid (process_kms_terms env ex.kms_terms s).1).1)).concept_associations =
        s.concept_associations := by
    intro s
    simp only [apply_ite DBState.concept_associations,
      upsert_concept_kms_associations_assoc, process_kms_terms_assoc, ite_self]
  simp only [updateCore]
  by_cases hcoll : ct = "collection"
  · rw [if_pos hcoll, if_pos hcoll]
    by_cases hA : (env.fetchAssociations cid).isEmpty
    · rw [if_pos hA, if_pos hA, hst3, upsert_chunks_assoc]
    · rw [if_neg hA, if_neg hA, upsert_associations_rows _ ct cid _ hA, hst3,
        upsert_chunks_assoc]
  · rw [if_neg hcoll, if_neg hcoll, hst3, upsert_chunks_assoc]

/-- The write phase is idempotent: running `updateCore` a second time with the
same inputs over its own output state is the identity. -/
theorem updateCore_replay (env : Env) (ct cid : String) (ex : ExtractionResult)
    (embedded : List (String × String × Vec)) (st : DBState) :
    updateCore env ct cid ex embedded (updateCore env ct cid ex embedded st) =
      updateCore env ct cid ex embedded st := by
  set U := updateCore env ct cid ex embedded st with hU
  have hUe : U.concept_embeddings =
      (upsert_chunks st ct cid embedded).1.concept_embeddings := by
    rw [hU]; exact updateCore_emb env ct cid ex embedded st
  have hUk : U.kms_embeddings =
      (process_kms_terms env ex.kms_terms
        (upsert_chunks st ct cid embedded).1).2.kms_embeddings := by
    rw [hU]; exact updateCore_kms env ct cid ex embedded st
  have h1 : (upsert_chunks U ct cid embedded).1 = U :=
    dbstate_eq _ _ (upsert_chunks_emb_replay U st ct cid embedded hUe)
      (upsert_chunks_assoc ..) (upsert_chunks_kms ..) (upsert_chunks_kmsassoc ..)
  have hcongr := kmsTermsLoop_kms_congr env ex.kms_terms [] U
    (process_kms_terms env ex.kms_terms (upsert_chunks st ct cid embedded).1).2 hUk
  have hreplay := kmsTermsLoop_replay env ex.kms_terms []
    (upsert_chunks st ct cid embedded).1
  have hP1 : (process_kms_terms env ex.kms_terms U).1 =
      (process_kms_terms env ex.kms_terms (upsert_chunks st ct cid embedded).1).1 := by
    show (kmsTermsLoop env ex.kms_terms [] U).1 =
      (kmsTermsLoop env ex.kms_terms [] (upsert_chunks st ct cid embedded).1).1
    rw [hcongr.1]
    exact congrArg Prod.fst hreplay
  have hP2 : (process_kms_terms env ex.kms_terms U).2 = U := by
    refine dbstate_eq _ _ (process_kms_terms_emb ..) (process_kms_terms_assoc ..) ?_
      (process_kms_terms_kmsassoc ..)
    show (kmsTermsLoop env ex.kms_terms [] U).2.kms_embeddings = U.kms_embeddings
    rw [hcongr.2]
    have h2 : (kmsTermsLoop env ex.kms_terms []
        (process_kms_terms env ex.kms_terms (upsert_chunks st ct cid embedded).1).2).2 =
        (process_kms_terms env ex.kms_terms (upsert_chunks st ct cid embedded).1).2 :=
      congrArg Prod.snd hreplay
    rw [h2]
    exact hUk.symm
  have hCK : (if (process_kms_terms env ex.kms_terms U).1.isEmpty then
      (process_kms_terms env ex.kms_terms U).2
    else (upsert_concept_kms_associations (process_kms_terms env ex.kms_terms U).2
      ct cid (process_kms_terms env ex.kms_terms U).1).1) = U := by
    rw [hP1, hP2]
    by_cases hus : (process_kms_terms env ex.kms_terms
        (upsert_chunks st ct cid embedded).1).1.isEmpty
    · rw [if_pos hus]
    · rw [if_neg hus]
      refine dbstate_eq _ _ (upsert_concept_kms_associations_emb ..)
        (upsert_concept_kms_associations_assoc ..)
        (upsert_concept_kms_associations_kms ..) ?_
      have hUka : U.concept_kms_associations =
          (upsert_concept_kms_associations
            (process_kms_terms env ex.kms_terms (upsert_chunks st ct cid embedded).1).2
            ct cid
            (process_kms_terms env ex.kms_terms
              (upsert_chunks st ct cid embedded).1).1).1.concept_kms_associations := by
        rw [hU, updateCore_kmsassoc, if_neg hus]
      exact upsert_concept_kms_associations_replay U _ ct cid _ hus hUka
  show updateCore env ct cid ex embedded U = U
  simp only [updateCore]
  rw [h1]
  rw [hCK]
  by_cases hcoll : ct = "collection"
  · rw [if_pos hcoll]
    by_cases hA : (env.fetchAssociations cid).isEmpty
    · rw [if_pos hA]
    · rw [if_neg hA]
      refine dbstate_eq _ _ (upsert_associations_emb ..) ?_ (upsert_associations_kms ..)
        (upsert_associations_kmsassoc ..)
      have hUassoc : U.concept_associations =
          assocTableAfter
            (st.concept_associations.filter fun r => ¬ r.left_concept_id = cid)
            ct cid (env.fetchAssociations cid) := by
        rw [hU, updateCore_assoc, if_pos hcoll, if_neg hA]
      exact upsert_associations_result_replay U ct cid _ _ hA
        (fun row hrow => by simpa using (List.mem_filter.mp hrow).2) hUassoc
  · rw [if_neg hcoll]

/-- Claim C3: replaying a successfully processed `concept-update` (same
fetched metadata, same embedder outputs, same KMS responses) is idempotent:
processing it again from the produced state returns the same state, and any
number of further deliveries of the same message leaves the datastore
unchanged with no failures reported. -/
theorem claim_C3 (env : Env) (ct cid : String) (rid : Int) (st st' : DBState)
    (mid : String) (h : process_concept_update env ct cid rid st = .ok st') :
    process_concept_update env ct cid rid st' = .ok st' ∧
    ∀ n, handler env (List.replicate n (updateRecord mid ct cid rid)) st' = (st', []) := by
  have hmain : process_concept_update env ct cid rid st' = .ok st' := by
    unfold process_concept_update at h ⊢
    cases hfetch : env.fetchConcept cid (toString rid) with
    | error e => simp [hfetch] at h
    | ok md =>
      simp only [hfetch] at h ⊢
      cases hembed : embedAll env (extract_data ct cid md).chunks with
      | error e => simp [hembed] at h
      | ok embedded =>
        simp only [hembed, Except.ok.injEq] at h ⊢
        rw [← h]
        exact updateCore_replay env ct cid (extract_data ct cid md) embedded st
  refine ⟨hmain, ?_⟩
  have hpm : process_message env (updateRecord mid ct cid rid) st' = .ok st' := by
    simp [process_message, updateRecord, hmain]
  intro n
  induction n with
  | zero => rfl
  | succ k ihk =>
    rw [List.replicate_succ, handler_cons]
    simp only [hpm]
    exact ihk

/-- Witness for C3: the S1-like concrete update replays to the very same
state, and three further deliveries change nothing. -/
theorem claim_C3_witness :
    process_concept_update envC2 "variable" "Y" 1 c2State1 = .ok c2State1 ∧
    handler envC2 (List.replicate 3 (updateRecord "m1" "variable" "Y" 1)) c2State1 =
      (c2State1, []) := by
  have h := claim_C3 envC2 "variable" "Y" 1 {} c2State1 "m1" rfl
  exact ⟨h.1, h.2 3⟩

end EarthdataMcp
